import Mathlib

/-!
Shallow embedding of the content-validation pipeline of the doc-planner
repository (src/doc_tools/core/content_validator.py and
src/doc_tools/workflows/content_validation.py).

Python JSON values are modelled by an inductive `Json`; `json.loads` applied
to the raw model reply is modelled by an `Option Json` argument (`none` is a
`json.JSONDecodeError`).  Python runtime exceptions that the pipeline can
raise are modelled by `PyErr` inside `Except`.  The external knowledge-base
retriever and the generative model are modelled by an `Oracle` of pure
functions; the number of outbound calls made by a run is tracked explicitly
in a `Calls` record.
-/

namespace DocPlanner

/-- JSON values as decoded by Python json.loads. -/
inductive Json where
  | null
  | bool (b : Bool)
  | num (n : Int)
  | str (s : String)
  | arr (elems : List Json)
  | obj (fields : List (String × Json))

/-- Python exceptions that the embedded pipeline can raise. -/
inductive PyErr where
  | valueError (msg : String)
  | typeError
  | keyError (key : String)
deriving DecidableEq

/-- Python `x == s` for a string literal s: true only when x is that string. -/
def Json.eqStr (j : Json) (s : String) : Bool :=
  match j with
  | .str t => t == s
  | _ => false

/-- Characters matched by the `\s` regex class and stripped by str.strip
(ASCII part; the pipeline only ever deals in these). -/
def isPyWs (c : Char) : Bool :=
  c == ' ' || c == '\t' || c == '\n' || c == '\r' || c == '\x0b' || c == '\x0c'

def trimLeftWs (l : List Char) : List Char := l.dropWhile isPyWs

def trimRightWs (l : List Char) : List Char := (l.reverse.dropWhile isPyWs).reverse

def pyStripList (l : List Char) : List Char := trimRightWs (trimLeftWs l)

/-- Python str.strip(). -/
def pyStrip (s : String) : String := String.mk (pyStripList s.data)

/-- One list is an initial run of another. -/
def isPrefixChars : List Char → List Char → Bool
  | [], _ => true
  | _ :: _, [] => false
  | a :: as, b :: bs => a == b && isPrefixChars as bs

/-- Python `sub in s` (substring containment). -/
def containsSubL : List Char → List Char → Bool
  | [], needle => needle.isEmpty
  | hay@(_ :: rest), needle => isPrefixChars needle hay || containsSubL rest needle

def containsSub (s sub : String) : Bool := containsSubL s.data sub.data

/-- Characters of a list that are not whitespace. -/
def filterNW (l : List Char) : List Char := l.filter (fun c => !isPyWs c)

/-- Characters of a string that are not whitespace (used to state
reconstruction of a document from its chunks up to whitespace). -/
def nonWsChars (s : String) : List Char := filterNW s.data

/-- Concatenation of a chunk list. -/
def concatChunks (l : List String) : String := String.mk (l.map String.data).flatten

/-! ## Chunkers

Each regex / str.split used by the two `_split_content` implementations is
embedded as a recursion over the character list.  Pieces are produced as
`List (List Char)` and wrapped into strings by the dispatcher.
-/

/-- Python content.split(sep 10) (split on a single newline). -/
def splitLinesL : List Char → List Char → List (List Char)
  | [], cur => [cur.reverse]
  | c :: rest, cur =>
    if c == '\n' then cur.reverse :: splitLinesL rest []
    else splitLinesL rest (c :: cur)

/-- Python content.split on the two-character separator of two newlines
(leftmost, non-overlapping), used by the core paragraph scope. -/
def splitNlNlL : List Char → List Char → List (List Char)
  | [], cur => [cur.reverse]
  | '\n' :: '\n' :: rest, cur => cur.reverse :: splitNlNlL rest []
  | c :: rest, cur => splitNlNlL rest (c :: cur)

/-- Head of a character list is whitespace. -/
def headIsWs : List Char → Bool
  | c :: _ => isPyWs c
  | [] => false

/-- re.split on the sentence-boundary regex (a lookbehind for `.`, `!` or `?`
followed by a maximal whitespace run): used by both sentence scopes.  The
fuel argument is always the length of the input; every step consumes at least
one character and spends exactly one unit of fuel, so the fuel never runs
out. -/
def sentencePiecesL : Nat → List Char → List Char → List (List Char)
  | 0, cs, cur => [cur.reverse ++ cs]
  | _ + 1, [], cur => [cur.reverse]
  | fuel + 1, c :: rest, cur =>
    if (c == '.' || c == '!' || c == '?') && headIsWs rest then
      (c :: cur).reverse :: sentencePiecesL fuel (rest.dropWhile isPyWs) []
    else sentencePiecesL fuel rest (c :: cur)

/-- Index of the last newline in a character list, if any. -/
def lastNlIdx : List Char → Option Nat
  | [] => none
  | c :: rest =>
    match lastNlIdx rest with
    | some m => some (m + 1)
    | none => if c == '\n' then some 0 else none

/-- re.split on the workflow paragraph regex (newline, greedy whitespace run,
newline).  A match at a newline consumes up to and including the last newline
of the maximal whitespace run that follows it.  Fuel as in
`sentencePiecesL`. -/
def paraPiecesWfL : Nat → List Char → List Char → List (List Char)
  | 0, cs, cur => [cur.reverse ++ cs]
  | _ + 1, [], cur => [cur.reverse]
  | fuel + 1, c :: rest, cur =>
    if c == '\n' then
      match lastNlIdx (rest.takeWhile isPyWs) with
      | some m => cur.reverse :: paraPiecesWfL fuel (rest.drop (m + 1)) []
      | none => paraPiecesWfL fuel rest (c :: cur)
    else paraPiecesWfL fuel rest (c :: cur)

/-- Head of a character list is a space. -/
def headIsSpace : List Char → Bool
  | c :: _ => c == ' '
  | [] => false

/-- re.split on the workflow markdown heading regex (a newline, one to six
hash marks, a space): a match exists at a newline exactly when the hash run
after it has length 1..6 and is followed by a space.  Fuel as in
`sentencePiecesL`. -/
def mdPiecesWfL : Nat → List Char → List Char → List (List Char)
  | 0, cs, cur => [cur.reverse ++ cs]
  | _ + 1, [], cur => [cur.reverse]
  | fuel + 1, c :: rest, cur =>
    if c == '\n' then
      let r := (rest.takeWhile (fun d => d == '#')).length
      if 1 ≤ r && r ≤ 6 && headIsSpace (rest.drop r) then
        cur.reverse :: mdPiecesWfL fuel (rest.drop (r + 1)) []
      else mdPiecesWfL fuel rest (c :: cur)
    else mdPiecesWfL fuel rest (c :: cur)

/-- Remainder of the input after a match of the regex for an opening section
tag (the literal text of an opening section tag, any run of characters other
than a closing angle bracket, then a closing angle bracket) at the head of the
input; none when no such match starts here. -/
def afterOpenTag (cs : List Char) : Option (List Char) :=
  if "<section".data.isPrefixOf cs then
    match (cs.drop 8).dropWhile (fun c => c != '>') with
    | '>' :: tail => some tail
    | _ => none
  else none

/-- Remainder of the input after a literal closing section tag at its head. -/
def afterCloseTag (cs : List Char) : Option (List Char) :=
  if "</section>".data.isPrefixOf cs then some (cs.drop 10) else none

/-- re.split on the core XML section regex (opening-tag pattern or closing
tag).  The fuel argument is always called with the length of the input; every
step consumes at least one character, so the fuel never runs out. -/
def xmlPiecesCoreL : Nat → List Char → List Char → List (List Char)
  | 0, cs, cur => [cur.reverse ++ cs]
  | _ + 1, [], cur => [cur.reverse]
  | fuel + 1, c :: rest, cur =>
    match afterOpenTag (c :: rest) with
    | some tail => cur.reverse :: xmlPiecesCoreL fuel tail []
    | none =>
      match afterCloseTag (c :: rest) with
      | some tail => cur.reverse :: xmlPiecesCoreL fuel tail []
      | none => xmlPiecesCoreL fuel rest (c :: cur)

/-- re.split on the workflow XML section regex (opening-tag pattern only). -/
def xmlPiecesWfL : Nat → List Char → List Char → List (List Char)
  | 0, cs, cur => [cur.reverse ++ cs]
  | _ + 1, [], cur => [cur.reverse]
  | fuel + 1, c :: rest, cur =>
    match afterOpenTag (c :: rest) with
    | some tail => cur.reverse :: xmlPiecesWfL fuel tail []
    | none => xmlPiecesWfL fuel rest (c :: cur)

/-- Python `line.startswith` of the one-character hash string. -/
def startsWithHash (line : String) : Bool :=
  match line.data with
  | c :: _ => c == '#'
  | [] => false

/-- Python newline.join. -/
def joinNl : List String → String
  | [] => ""
  | [l] => l
  | l :: ls => l ++ "\n" ++ joinNl ls

/-- The markdown-heading accumulation loop of
ContentValidator._split_content_by_scope: a line starting with a hash mark
flushes the current section and starts a new one; all lines (the heading line
included) are accumulated; a trailing nonempty section is flushed. -/
def mdSectionsCoreStep (acc : List String × List String) (line : String) :
    List String × List String :=
  if startsWithHash line then
    (if acc.2.isEmpty then acc.1
     else acc.1 ++ [joinNl acc.2], [line])
  else (acc.1, acc.2 ++ [line])

def mdSectionsCore (content : String) : List String :=
  let lines := (splitLinesL content.data []).map String.mk
  let acc := lines.foldl mdSectionsCoreStep ([], [])
  if acc.2.isEmpty then acc.1 else acc.1 ++ [joinNl acc.2]

/-- Embedding of ContentValidator._split_content_by_scope.  A raised
ValueError is an `Except.error`. -/
def splitContentByScope (content : String) (scope : String) :
    Except PyErr (List String) :=
  if scope == "full" then .ok [content]
  else if scope == "section" then
    if containsSub content "<section" || containsSub content "</section>" then
      .ok (((xmlPiecesCoreL content.data.length content.data []).map String.mk).filter
        (fun s => pyStrip s != ""))
    else .ok (mdSectionsCore content)
  else if scope == "paragraph" then
    .ok (((splitNlNlL content.data []).map String.mk).filter (fun s => pyStrip s != ""))
  else if scope == "sentence" then
    .ok (((sentencePiecesL content.data.length content.data []).map String.mk).filter
      (fun s => pyStrip s != ""))
  else .error (.valueError ("Invalid scope: " ++ scope))

/-- Embedding of ContentValidationWorkflow._split_content.  The comprehension
keeps the stripped text of every piece whose stripped text is nonempty. -/
def stripAndFilter (pieces : List String) : List String :=
  (pieces.filter (fun s => pyStrip s != "")).map pyStrip

def splitContentWf (content : String) (scope : String) :
    Except PyErr (List String) :=
  if scope == "full" then .ok [content]
  else if scope == "section" then
    if containsSub content "<section" then
      .ok (stripAndFilter ((xmlPiecesWfL content.data.length content.data []).map String.mk))
    else
      .ok (stripAndFilter ((mdPiecesWfL content.data.length content.data []).map String.mk))
  else if scope == "paragraph" then
    .ok (stripAndFilter ((paraPiecesWfL content.data.length content.data []).map String.mk))
  else if scope == "sentence" then
    .ok (stripAndFilter ((sentencePiecesL content.data.length content.data []).map String.mk))
  else .error (.valueError ("Invalid scope: " ++ scope))

/-! ## Python dynamic-value operations on decoded JSON -/

/-- Python membership test `key in x` (TypeError on non-container values). -/
def pyContains (j : Json) (key : String) : Except PyErr Bool :=
  match j with
  | .obj fs => .ok (fs.any (fun p => p.1 == key))
  | .arr xs => .ok (xs.any (fun x => x.eqStr key))
  | .str s => .ok (containsSub s key)
  | _ => .error .typeError

/-- Assignment into an association list, Python dict semantics: overwrite in
place when the key exists, append otherwise. -/
def setField : List (String × Json) → String → Json → List (String × Json)
  | [], k, v => [(k, v)]
  | (k', v') :: rest, k, v =>
    if k' == k then (k, v) :: rest else (k', v') :: setField rest k v

/-- Python item assignment `x[key] = v` for a string key. -/
def pySetItem (j : Json) (key : String) (v : Json) : Except PyErr Json :=
  match j with
  | .obj fs => .ok (.obj (setField fs key v))
  | _ => .error .typeError

/-- Python item access `x[key]` for a string key: KeyError for a dict without
the key, TypeError on non-dict values. -/
def pyGetItem (j : Json) (key : String) : Except PyErr Json :=
  match j with
  | .obj fs =>
    match fs.find? (fun p => p.1 == key) with
    | some p => .ok p.2
    | none => .error (.keyError key)
  | _ => .error .typeError

/-- Total variant of item access, for stating properties (null on failure). -/
def getD (j : Json) (key : String) : Json :=
  match j with
  | .obj fs => ((fs.find? (fun p => p.1 == key)).map Prod.snd).getD .null
  | _ => .null

/-- Python truthiness of a decoded JSON value. -/
def Json.truthy : Json → Bool
  | .null => false
  | .bool b => b
  | .num n => n != 0
  | .str s => s != ""
  | .arr xs => !xs.isEmpty
  | .obj fs => !fs.isEmpty

/-- Python iteration over a decoded JSON value: list elements, characters of
a string, keys of a dict; TypeError otherwise. -/
def pyIter (j : Json) : Except PyErr (List Json) :=
  match j with
  | .arr xs => .ok xs
  | .str s => .ok (s.data.map (fun c => .str (String.mk [c])))
  | .obj fs => .ok (fs.map (fun p => .str p.1))
  | _ => .error .typeError

mutual
/-- Python str() of a decoded JSON value, as used by f-string interpolation
in the report generators. -/
def pyStr : Json → String
  | .null => "None"
  | .bool b => if b then "True" else "False"
  | .num n => toString n
  | .str s => s
  | .arr xs => "[" ++ pyReprList xs ++ "]"
  | .obj fs => "\x7b" ++ pyReprFields fs ++ "\x7d"

/-- Python repr() of a decoded JSON value (strings get quotes). -/
def pyRepr : Json → String
  | .null => "None"
  | .bool b => if b then "True" else "False"
  | .num n => toString n
  | .str s => "\x27" ++ s ++ "\x27"
  | .arr xs => "[" ++ pyReprList xs ++ "]"
  | .obj fs => "\x7b" ++ pyReprFields fs ++ "\x7d"

def pyReprList : List Json → String
  | [] => ""
  | [x] => pyRepr x
  | x :: xs => pyRepr x ++ ", " ++ pyReprList xs

def pyReprFields : List (String × Json) → String
  | [] => ""
  | [p] => "\x27" ++ p.1 ++ "\x27: " ++ pyRepr p.2
  | p :: ps => "\x27" ++ p.1 ++ "\x27: " ++ pyRepr p.2 ++ ", " ++ pyReprFields ps
end

/-! ## Analyzer -/

/-- Empty or neutral default used by the backfill loop of
ContentValidator._analyze_chunk_against_passages. -/
def defaultFor (field : String) : Json :=
  if field == "references" || field == "suggestions" then .arr [] else .str ""

def requiredFields : List String := ["status", "message", "references", "suggestions"]

/-- One iteration of the backfill loop: if the field is not in the decoded
value, assign the default.  Both the membership test and the assignment follow
the Python dynamic semantics and can raise TypeError on non-dict values. -/
def ensureField (j : Json) (field : String) : Except PyErr Json := do
  let present ← pyContains j field
  if present then pure j else pySetItem j field (defaultFor field)

/-- Embedding of the response-decoding tail of
ContentValidator._analyze_chunk_against_passages, applied to the model reply
after json.loads: none models a json.JSONDecodeError, which is caught and
turned into the generic fallback verdict; a decoded value goes through the
backfill loop for the four required fields. -/
def analyzeDecode (reply : Option Json) : Except PyErr Json :=
  match reply with
  | none =>
    .ok (.obj [("status", .str "unknown"),
               ("message", .str "Failed to analyze content"),
               ("references", .arr []),
               ("suggestions", .arr [.str "Re-run validation with different scope"])])
  | some j => requiredFields.foldlM ensureField j

/-! ## External collaborators and call accounting -/

/-- The two external collaborators (knowledge-base retrieval and the
generative model), as pure functions.  The retriever maps the query text (the
first 500 characters of a chunk) to the extracted passage list; the model
maps the chunk and the passages that the prompt was built from to its reply
after json.loads (none = reply was not valid JSON). -/
structure Oracle where
  retrieve : String → List String
  reply : String → List String → Option Json

/-- Outbound call counts of a run. -/
structure Calls where
  retrieve : Nat
  model : Nat
deriving DecidableEq

/-! ## ContentValidator.validate_content -/

/-- One per-chunk entry of the validator result.  The zero-passage branch of
validate_content builds its entry without a suggestions key, so that field is
an Option; the analyzed branch always fills it. -/
structure VChunkEntry where
  content : String
  status : Json
  message : Json
  references : Json
  suggestions : Option Json

structure VSummary where
  total_chunks : Nat
  validated_chunks : Nat
  issues_found : Nat
deriving DecidableEq

structure VResult where
  summary : VSummary
  chunks : List VChunkEntry
  overall_status : String

/-- An entry whose verdict status is not the string valid. -/
def VChunkEntry.nonValid (e : VChunkEntry) : Bool := !(e.status.eqStr "valid")

/-- An entry produced by the analyzed branch (the zero-passage branch leaves
the suggestions key absent). -/
def VChunkEntry.analyzed (e : VChunkEntry) : Bool := e.suggestions.isSome

/-- The loop body of ContentValidator.validate_content for one chunk,
threading the summary counters, the entry list and the outbound call counts;
an uncaught exception freezes the accumulator in the error state. -/
def vStep (o : Oracle) (acc : Except PyErr (VSummary × List VChunkEntry) × Calls)
    (chunk : String) : Except PyErr (VSummary × List VChunkEntry) × Calls :=
  match acc with
  | (.error e, calls) => (.error e, calls)
  | (.ok (sum, entries), calls) =>
    if pyStrip chunk == "" then (.ok (sum, entries), calls)
    else
      let passages := o.retrieve (chunk.take 500)
      let calls1 : Calls := { calls with retrieve := calls.retrieve + 1 }
      if passages.isEmpty then
        (.ok (sum, entries ++
          [{ content := chunk, status := .str "unknown",
             message := .str "No relevant information found in knowledge base",
             references := .arr [], suggestions := none }]), calls1)
      else
        let decoded := o.reply chunk passages
        let calls2 : Calls := { calls1 with model := calls1.model + 1 }
        match analyzeDecode decoded with
        | .error e => (.error e, calls2)
        | .ok analysis =>
          match pyGetItem analysis "status" with
          | .error e => (.error e, calls2)
          | .ok st =>
            match pyGetItem analysis "message" with
            | .error e => (.error e, calls2)
            | .ok msg =>
              match pyGetItem analysis "references" with
              | .error e => (.error e, calls2)
              | .ok refs =>
                match pyGetItem analysis "suggestions" with
                | .error e => (.error e, calls2)
                | .ok sugg =>
                  (.ok ({ sum with
                            validated_chunks := sum.validated_chunks + 1,
                            issues_found := sum.issues_found +
                              (if st.eqStr "valid" then 0 else 1) },
                        entries ++ [{ content := chunk, status := st, message := msg,
                                      references := refs, suggestions := some sugg }]),
                   calls2)

/-- Embedding of ContentValidator.validate_content (minus file persistence):
split, process every chunk, then derive the overall status.  The pair holds
the outcome and the outbound call counts of the run. -/
def validateContent (o : Oracle) (content : String) (scope : String) :
    Except PyErr VResult × Calls :=
  match splitContentByScope content scope with
  | .error e => (.error e, ⟨0, 0⟩)
  | .ok chunks =>
    let init : Except PyErr (VSummary × List VChunkEntry) × Calls :=
      (.ok ({ total_chunks := chunks.length, validated_chunks := 0, issues_found := 0 },
            []), ⟨0, 0⟩)
    match chunks.foldl (vStep o) init with
    | (.error e, calls) => (.error e, calls)
    | (.ok (sum, entries), calls) =>
      (.ok { summary := sum, chunks := entries,
             overall_status := if sum.issues_found == 0 then "valid" else "issues_found" },
       calls)

/-! ## ContentValidationWorkflow -/

/-- Embedding of ContentValidationWorkflow._validate_chunk.  The knowledge
base is always queried and the model is always invoked (the prompt holds the
first three passages, or a placeholder when none were retrieved); a reply
that is not valid JSON is replaced by the default error verdict; then the
chunk text is assigned into the result under the content key, which raises
TypeError when the decoded reply is not a dict. -/
def wfValidateChunk (o : Oracle) (chunk : String) : Except PyErr Json × Calls :=
  let passages := o.retrieve (chunk.take 500)
  let decoded := o.reply chunk (passages.take 3)
  let result : Json :=
    match decoded with
    | some j => j
    | none => .obj [("status", .str "error"),
                    ("message", .str "Failed to parse validation result"),
                    ("suggestions", .arr [])]
  (pySetItem result "content" (.str chunk), ⟨1, 1⟩)

/-- A stored workflow verdict whose status is not the string valid (missing
status reads as null, which also compares unequal to valid). -/
def wfNonValid (j : Json) : Bool := !((getD j "status").eqStr "valid")

/-- The loop body of ContentValidationWorkflow.validate_file for one chunk:
validate it, append the verdict, and bump the issue counter when its status
is not valid (a KeyError from the status access propagates). -/
def wfStep (o : Oracle) (acc : Except PyErr (List Json × Nat) × Calls)
    (chunk : String) : Except PyErr (List Json × Nat) × Calls :=
  match acc with
  | (.error e, calls) => (.error e, calls)
  | (.ok (vs, issues), calls) =>
    match wfValidateChunk o chunk with
    | (.error e, c) => (.error e, ⟨calls.retrieve + c.retrieve, calls.model + c.model⟩)
    | (.ok result, c) =>
      let calls1 : Calls := ⟨calls.retrieve + c.retrieve, calls.model + c.model⟩
      match pyGetItem result "status" with
      | .error e => (.error e, calls1)
      | .ok st =>
        (.ok (vs ++ [result], issues + (if st.eqStr "valid" then 0 else 1)), calls1)

structure WfSummary where
  validated_chunks : Nat
  issues_found : Nat
deriving DecidableEq

structure WfResult where
  file_path : String
  scope : String
  overall_status : String
  summary : WfSummary
  chunks : List Json

/-- Embedding of ContentValidationWorkflow.validate_file (file reading is
abstracted to the content argument, persistence omitted): split, validate
every chunk, and compile the result. -/
def wfValidateFile (o : Oracle) (filePath content scope : String) :
    Except PyErr WfResult × Calls :=
  match splitContentWf content scope with
  | .error e => (.error e, ⟨0, 0⟩)
  | .ok chunks =>
    match chunks.foldl (wfStep o) (.ok ([], 0), ⟨0, 0⟩) with
    | (.error e, calls) => (.error e, calls)
    | (.ok (vs, issues), calls) =>
      (.ok { file_path := filePath, scope := scope,
             overall_status := if issues == 0 then "valid" else "issues_found",
             summary := { validated_chunks := chunks.length, issues_found := issues },
             chunks := vs },
       calls)

/-- The mutable state of a ContentValidationWorkflow instance that the report
generator reads: validation_results starts as None. -/
structure WorkflowState where
  kb_id : String
  model_id : String
  validation_results : Option WfResult

/-- validate_file including its assignment to self.validation_results: the
state is updated only when the run completes. -/
def validateFileRun (s : WorkflowState) (o : Oracle) (filePath content scope : String) :
    (Except PyErr WfResult × Calls) × WorkflowState :=
  match wfValidateFile o filePath content scope with
  | (.ok r, calls) => ((.ok r, calls), { s with validation_results := some r })
  | (.error e, calls) => ((.error e, calls), s)

/-! ## Reporters -/

/-- The summary header of the markdown report. -/
def mdHeader (r : WfResult) : String :=
  "# Content Validation Report\n\n" ++
  "**File:** " ++ r.file_path ++ "\n" ++
  "**Scope:** " ++ r.scope ++ "\n" ++
  "**Status:** " ++ r.overall_status ++ "\n" ++
  "**Chunks Validated:** " ++ toString r.summary.validated_chunks ++ "\n" ++
  "**Issues Found:** " ++ toString r.summary.issues_found ++ "\n\n"

/-- The suggestions block of one markdown issue subsection (empty when the
suggestions value is falsy); iterating a non-iterable suggestions value
raises TypeError. -/
def mdSuggestions (sugg : Json) : Except PyErr String :=
  if sugg.truthy then do
    let items ← pyIter sugg
    pure ("**Suggestions:**\n\n" ++
      String.join (items.map (fun s => "- " ++ pyStr s ++ "\n")) ++ "\n")
  else pure ""

/-- The markdown text contributed by the chunk at position i of the loop of
_generate_markdown_report: empty for a valid chunk, an issue subsection
otherwise. -/
def mdChunkSection (i : Nat) (chunk : Json) : Except PyErr String := do
  let st ← pyGetItem chunk "status"
  if st.eqStr "valid" then pure ""
  else do
    let content ← pyGetItem chunk "content"
    let msg ← pyGetItem chunk "message"
    let sugg ← pyGetItem chunk "suggestions"
    let sblock ← mdSuggestions sugg
    pure ("### Issue " ++ toString (i + 1) ++ "\n\n" ++
      ("**Content:**\n\n" ++
       ("```\n" ++ pyStr content ++ "\n```") ++
       ("\n\n" ++
        "**Status:** " ++ pyStr st ++ "\n\n" ++
        "**Message:** " ++ pyStr msg ++ "\n\n" ++ sblock)))

/-- The issues part of the markdown report: the concatenation of the
per-chunk sections in chunk order. -/
def mdIssuesText (chunks : List Json) : Except PyErr String :=
  chunks.enum.foldlM (fun acc p => do
    let s ← mdChunkSection p.1 p.2
    pure (acc ++ s)) ""

/-- Embedding of ContentValidationWorkflow._generate_markdown_report. -/
def mdReport (r : WfResult) : Except PyErr String :=
  if r.summary.issues_found > 0 then do
    let issues ← mdIssuesText r.chunks
    pure (mdHeader r ++ "## Issues\n\n" ++ issues)
  else pure (mdHeader r)

/-- The fixed head of the HTML report up to the summary block (document type,
styles), with the literal braces of the CSS rules. -/
def htmlHead : String :=
  "<!DOCTYPE html>\n        <html>\n        <head>\n            <title>Content Validation Report</title>\n            <style>\n                body \x7b font-family: Arial, sans-serif; margin: 20px; \x7d\n                h1 \x7b color: #0066cc; \x7d\n                h2 \x7b color: #0066cc; margin-top: 30px; \x7d\n                h3 \x7b margin-top: 20px; \x7d\n                .summary \x7b background-color: #f0f0f0; padding: 15px; border-radius: 5px; \x7d\n                .valid \x7b color: green; \x7d\n                .issues \x7b color: orange; \x7d\n                .error \x7b color: red; \x7d\n                .content \x7b background-color: #f8f8f8; padding: 15px; border-left: 4px solid #ddd; margin: 10px 0; \x7d\n                .suggestions \x7b margin-left: 20px; \x7d\n            </style>\n        </head>\n        <body>\n            <h1>Content Validation Report</h1>\n            \n"

/-- The summary block of the HTML report. -/
def htmlSummary (r : WfResult) : String :=
  "            <div class=\"summary\">\n" ++
  "                <p><strong>File:</strong> " ++ r.file_path ++ "</p>\n" ++
  "                <p><strong>Scope:</strong> " ++ r.scope ++ "</p>\n" ++
  "                <p><strong>Status:</strong> <span class=\"" ++
    (if r.overall_status == "valid" then "valid" else "issues") ++ "\">" ++
    r.overall_status ++ "</span></p>\n" ++
  "                <p><strong>Chunks Validated:</strong> " ++
    toString r.summary.validated_chunks ++ "</p>\n" ++
  "                <p><strong>Issues Found:</strong> " ++
    toString r.summary.issues_found ++ "</p>\n" ++
  "            </div>\n        "

/-- The suggestions block of one HTML issue subsection. -/
def htmlSuggestions (sugg : Json) : Except PyErr String :=
  if sugg.truthy then do
    let items ← pyIter sugg
    pure ("<p><strong>Suggestions:</strong></p><ul class=\x27suggestions\x27>" ++
      String.join (items.map (fun s => "<li>" ++ pyStr s ++ "</li>")) ++ "</ul>")
  else pure ""

/-- The HTML text contributed by the chunk at position i of the loop of
_generate_html_report. -/
def htmlChunkSection (i : Nat) (chunk : Json) : Except PyErr String := do
  let st ← pyGetItem chunk "status"
  if st.eqStr "valid" then pure ""
  else do
    let content ← pyGetItem chunk "content"
    let msg ← pyGetItem chunk "message"
    let sugg ← pyGetItem chunk "suggestions"
    let sblock ← htmlSuggestions sugg
    pure ("<h3>Issue " ++ toString (i + 1) ++ "</h3>" ++
      "<div class=\x27content\x27><pre>" ++ pyStr content ++ "</pre></div>" ++
      "<p><strong>Status:</strong> <span class=\x27issues\x27>" ++ pyStr st ++ "</span></p>" ++
      "<p><strong>Message:</strong> " ++ pyStr msg ++ "</p>" ++ sblock)

def htmlIssuesText (chunks : List Json) : Except PyErr String :=
  chunks.enum.foldlM (fun acc p => do
    let s ← htmlChunkSection p.1 p.2
    pure (acc ++ s)) ""

/-- Embedding of ContentValidationWorkflow._generate_html_report. -/
def htmlReport (r : WfResult) : Except PyErr String := do
  let issues ←
    if r.summary.issues_found > 0 then do
      let t ← htmlIssuesText r.chunks
      pure ("<h2>Issues</h2>" ++ t)
    else pure ""
  pure (htmlHead ++ htmlSummary r ++ issues ++ "\n        </body>\n        </html>\n        ")

/-- Embedding of ContentValidationWorkflow.generate_validation_report (report
persistence omitted): fail when no validation results are stored, render
markdown for the exact format string markdown and HTML for anything else.
The method never assigns to the instance, so the returned state is the input
state. -/
def generateValidationReport (s : WorkflowState) (fmt : String) :
    Except PyErr String × WorkflowState :=
  match s.validation_results with
  | none => (.error (.valueError "No validation results available"), s)
  | some r => (if fmt == "markdown" then mdReport r else htmlReport r, s)

/-! ## Derived notions used to state properties -/

/-- The chunk lists a splitter may produce relative to a document: the
chunks are contiguous substrings of the document, pairwise non-overlapping,
and appear in input order — each chunk is preceded by a (possibly empty) gap
of characters the splitter discarded (delimiters, stripped whitespace,
dropped pieces). -/
inductive ChunksInOrder : List Char → List (List Char) → Prop where
  | nil (rest : List Char) : ChunksInOrder rest []
  | cons (gap piece rest : List Char) (chunks : List (List Char)) :
      ChunksInOrder rest chunks →
      ChunksInOrder (gap ++ (piece ++ rest)) (piece :: chunks)

/-- The sections that the markdown accumulation loop of
ContentValidator._split_content_by_scope still emits from an intermediate
state: cur holds the lines accumulated for the current section.  This is the
recursive restatement of the foldl over the lines (see `mdFold_emit`). -/
def mdEmit : List String → List String → List String
  | [], cur => if cur.isEmpty then [] else [joinNl cur]
  | line :: lines, cur =>
    if startsWithHash line then
      (if cur.isEmpty then [] else [joinNl cur]) ++ mdEmit lines [line]
    else mdEmit lines (cur ++ [line])

/-- A stored field map has the key. -/
def hasKey (fs : List (String × Json)) (k : String) : Bool := fs.any (fun p => p.1 == k)

/-- The value stored under a key, if any. -/
def lookupField (fs : List (String × Json)) (k : String) : Option Json :=
  (fs.find? (fun p => p.1 == k)).map Prod.snd

/-- A stored workflow verdict entry that the report loops can render: a dict
with a string status, and content, message and suggestions fields (the
suggestions a list). -/
def EntryOk (j : Json) : Prop :=
  (∃ s, pyGetItem j "status" = .ok (.str s)) ∧
  (∃ v, pyGetItem j "content" = .ok v) ∧
  (∃ v, pyGetItem j "message" = .ok v) ∧
  (∃ l, pyGetItem j "suggestions" = .ok (.arr l))

/-- Total variant of Python iteration (empty on non-lists); agrees with
`pyIter` on lists. -/
def iterD (j : Json) : List Json :=
  match j with
  | .arr xs => xs
  | _ => []

/-- Concatenation of a list of strings. -/
def concatStrs : List String → String
  | [] => ""
  | s :: ss => s ++ concatStrs ss

/-- The suggestions block of a markdown issue subsection, as a total function
of a well-formed entry. -/
def mdSuggestionsPure (sugg : Json) : String :=
  if sugg.truthy then
    "**Suggestions:**\n\n" ++
      String.join ((iterD sugg).map (fun s => "- " ++ pyStr s ++ "\n")) ++ "\n"
  else ""

/-- The markdown issue subsection for the non-valid chunk at position i, as a
total function of a well-formed entry. -/
def mdBlockOf (i : Nat) (j : Json) : String :=
  "### Issue " ++ toString (i + 1) ++ "\n\n" ++
    ("**Content:**\n\n" ++
     ("```\n" ++ pyStr (getD j "content") ++ "\n```") ++
     ("\n\n" ++
      "**Status:** " ++ pyStr (getD j "status") ++ "\n\n" ++
      "**Message:** " ++ pyStr (getD j "message") ++ "\n\n" ++
      mdSuggestionsPure (getD j "suggestions")))

/-- The issue subsections of the markdown report, one per non-valid chunk, in
chunk order, with loop positions starting at n. -/
def mdIssueBlocksFrom (n : Nat) (chunks : List Json) : List String :=
  ((chunks.enumFrom n).filter (fun p => wfNonValid p.2)).map (fun p => mdBlockOf p.1 p.2)

def mdIssueBlocks (chunks : List Json) : List String := mdIssueBlocksFrom 0 chunks

/-! ## Concrete collaborators used to evaluate the pipeline at fixed inputs -/

/-- Retrieval finds nothing; the model reply is not valid JSON. -/
def oracleNoKbNoJson : Oracle := ⟨fun _ => [], fun _ _ => none⟩

/-- Retrieval finds nothing; the model reply is a well-formed valid verdict. -/
def oracleEmptyKb : Oracle := ⟨fun _ => [], fun _ _ => some (.obj [("status", .str "valid")])⟩

/-- Retrieval finds a passage; the model reply is valid JSON but a number. -/
def oracleJsonNum : Oracle := ⟨fun _ => ["p"], fun _ _ => some (.num 42)⟩

/-- Retrieval finds a passage; the model reply is an empty JSON object. -/
def oracleEmptyObj : Oracle := ⟨fun _ => ["p"], fun _ _ => some (.obj [])⟩

/-- Retrieval finds a passage; the model reply is a well-formed valid verdict. -/
def oracleValid : Oracle := ⟨fun _ => ["p"], fun _ _ => some (.obj [("status", .str "valid")])⟩

/-- A fixed well-formed stored validation result. -/
def sampleWfResult : WfResult :=
  { file_path := "doc.md", scope := "full", overall_status := "valid",
    summary := { validated_chunks := 1, issues_found := 0 },
    chunks := [.obj [("status", .str "valid"), ("message", .str "ok"),
                     ("suggestions", .arr []), ("content", .str "x")]] }

/-- A fixed stored validation result holding one non-valid verdict. -/
def issueWfResult : WfResult :=
  { file_path := "doc.md", scope := "full", overall_status := "issues_found",
    summary := { validated_chunks := 1, issues_found := 1 },
    chunks := [.obj [("status", .str "issues_found"), ("message", .str "bad"),
                     ("suggestions", .arr [.str "fix"]), ("content", .str "x")]] }

/-! ## Theorems -/

/-! ### Shared helper lemmas -/

theorem getD_of_pyGetItem (j : Json) (k : String) (v : Json)
    (h : pyGetItem j k = .ok v) : getD j k = v := by
  cases j with
  | obj fs =>
    simp only [pyGetItem] at h
    cases hf : fs.find? (fun p => p.1 == k) with
    | none => rw [hf] at h; exact absurd h (by simp)
    | some p =>
      rw [hf] at h
      simp only [Except.ok.injEq] at h
      simp [getD, hf, h]
  | null => exact absurd h (by simp [pyGetItem])
  | bool b => exact absurd h (by simp [pyGetItem])
  | num n => exact absurd h (by simp [pyGetItem])
  | str s => exact absurd h (by simp [pyGetItem])
  | arr xs => exact absurd h (by simp [pyGetItem])

theorem ensureField_obj (fs : List (String × Json)) (f : String) :
    ensureField (.obj fs) f =
      .ok (.obj (if hasKey fs f then fs else setField fs f (defaultFor f))) := by
  have hdef : ensureField (.obj fs) f =
      (if hasKey fs f then Except.ok (Json.obj fs)
       else pySetItem (Json.obj fs) f (defaultFor f)) := rfl
  rw [hdef]
  cases h : hasKey fs f <;> simp [h, pySetItem]

theorem hasKey_setField (fs : List (String × Json)) (k : String) (v : Json)
    (g : String) : hasKey (setField fs k v) g = (hasKey fs g || (k == g)) := by
  induction fs with
  | nil => simp [setField, hasKey]
  | cons p rest ih =>
    obtain ⟨a, b⟩ := p
    simp only [setField]
    by_cases h : (a == k) = true
    · have ha : a = k := by exact beq_iff_eq.mp h
      subst ha
      simp only [if_pos rfl, hasKey, List.any_cons]
      cases hag : (a == g) <;> cases hr : rest.any (fun p => p.1 == g) <;> simp [hag, hr]
    · rw [if_neg h]
      simp only [hasKey, List.any_cons] at *
      rw [ih]
      cases (a == g) <;> cases rest.any (fun p => p.1 == g) <;> cases (k == g) <;> simp

theorem lookupField_setField_self (fs : List (String × Json)) (k : String)
    (v : Json) : lookupField (setField fs k v) k = some v := by
  induction fs with
  | nil => simp [setField, lookupField, List.find?]
  | cons p rest ih =>
    obtain ⟨a, b⟩ := p
    simp only [setField]
    by_cases h : (a == k) = true
    · rw [if_pos h]
      simp [lookupField, List.find?]
    · rw [if_neg h]
      simp only [lookupField, List.find?, h] at *
      exact ih

theorem lookupField_setField_ne (fs : List (String × Json)) (k : String)
    (v : Json) (g : String) (hne : k ≠ g) :
    lookupField (setField fs k v) g = lookupField fs g := by
  have hkg : (k == g) = false := beq_eq_false_iff_ne.mpr hne
  induction fs with
  | nil => simp [setField, lookupField, List.find?, hkg]
  | cons p rest ih =>
    obtain ⟨a, b⟩ := p
    simp only [setField]
    by_cases h : (a == k) = true
    · have ha : a = k := beq_iff_eq.mp h
      subst ha
      rw [if_pos h]
      simp [lookupField, List.find?, hkg]
    · rw [if_neg h]
      simp only [lookupField, List.find?] at *
      cases hag : (a == g) <;> simp [hag, ih]

/-- The backfill loop on a decoded dict never raises, leaves existing fields
unchanged, and fills every missing processed field with its default. -/
theorem backfill_fields (fields : List String) :
    ∀ fs : List (String × Json), ∃ fs',
      fields.foldlM ensureField (Json.obj fs) = .ok (.obj fs') ∧
      (∀ k, hasKey fs' k = (hasKey fs k || fields.contains k)) ∧
      (∀ k, hasKey fs k = true → lookupField fs' k = lookupField fs k) ∧
      (∀ k, k ∈ fields → hasKey fs k = false →
        lookupField fs' k = some (defaultFor k)) := by
  induction fields with
  | nil =>
    intro fs
    exact ⟨fs, rfl, by simp, fun k _ => rfl, by simp⟩
  | cons f rest ih =>
    intro fs
    obtain ⟨fs', h1, h2, h3, h4⟩ :=
      ih (if hasKey fs f then fs else setField fs f (defaultFor f))
    have hmono : ∀ k, hasKey fs k = true →
        hasKey (if hasKey fs f then fs else setField fs f (defaultFor f)) k = true := by
      intro k hk
      by_cases hf : hasKey fs f = true
      · simp [hf, hk]
      · simp only [Bool.not_eq_true] at hf
        simp [hf, hasKey_setField, hk]
    refine ⟨fs', ?_, ?_, ?_, ?_⟩
    · rw [List.foldlM_cons, ensureField_obj]
      exact h1
    · intro k
      rw [h2 k, List.contains_cons]
      by_cases hfk : k = f
      · subst hfk
        by_cases hf : hasKey fs k = true
        · simp [hf]
        · simp only [Bool.not_eq_true] at hf
          simp [hf, hasKey_setField]
      · have hkf : (k == f) = false := beq_eq_false_iff_ne.mpr hfk
        have hfk2 : (f == k) = false := beq_eq_false_iff_ne.mpr (Ne.symm hfk)
        by_cases hf : hasKey fs f = true
        · simp [hf, hkf]
        · simp only [Bool.not_eq_true] at hf
          simp [hf, hasKey_setField, hkf, hfk2, Bool.or_assoc]
    · intro k hk
      rw [h3 k (hmono k hk)]
      by_cases hf : hasKey fs f = true
      · simp [hf]
      · simp only [Bool.not_eq_true] at hf
        have hfk : f ≠ k := by
          intro hh
          subst hh
          rw [hk] at hf
          exact Bool.true_eq_false.mp hf
        simp [hf, lookupField_setField_ne fs f (defaultFor f) k hfk]
    · intro k hkmem hk
      rcases List.mem_cons.mp hkmem with hkf | hkrest
      · subst hkf
        have hf : hasKey fs k = false := hk
        rw [h3 k (by simp [hf, hasKey_setField])]
        simp [hf, lookupField_setField_self]
      · by_cases hfk : f = k
        · subst hfk
          rw [h3 f (by simp [hk, hasKey_setField])]
          simp [hk, lookupField_setField_self]
        · by_cases hf : hasKey fs f = true
          · exact h4 k hkrest (by simp [hf, hk])
          · simp only [Bool.not_eq_true] at hf
            exact h4 k hkrest
              (by simp [hf, hasKey_setField, hk, beq_eq_false_iff_ne.mpr hfk])

theorem wfStep_foldl_error (o : Oracle) (chunks : List String) (e : PyErr)
    (calls : Calls) :
    chunks.foldl (wfStep o) (.error e, calls) = (.error e, calls) := by
  induction chunks with
  | nil => rfl
  | cons c rest ih => rw [List.foldl_cons]; exact ih

/-- Workflow loop invariant: a completed fold appends one verdict per chunk
and counts exactly the non-valid ones. -/
theorem wfStep_foldl_ok (o : Oracle) (chunks : List String) :
    ∀ (vs : List Json) (issues : Nat) (calls : Calls) (vs' : List Json)
      (issues' : Nat) (calls' : Calls),
    chunks.foldl (wfStep o) (.ok (vs, issues), calls) = (.ok (vs', issues'), calls') →
    ∃ extra : List Json, vs' = vs ++ extra ∧
      issues' = issues + extra.countP wfNonValid ∧
      extra.length = chunks.length := by
  induction chunks with
  | nil =>
    intro vs issues calls vs' issues' calls' h
    rw [List.foldl_nil] at h
    obtain ⟨hE, hC⟩ := Prod.mk.inj h
    obtain ⟨hv, hi⟩ := Prod.mk.inj (Except.ok.inj hE)
    exact ⟨[], by simp [← hv], by simp [← hi], rfl⟩
  | cons c rest ih =>
    intro vs issues calls vs' issues' calls' h
    rw [List.foldl_cons] at h
    rw [wfStep] at h
    rcases hvc : wfValidateChunk o c with ⟨res, cc⟩
    rw [hvc] at h
    cases res with
    | error e =>
      rw [wfStep_foldl_error] at h
      exact absurd h (by simp)
    | ok result =>
      simp only at h
      cases hst : pyGetItem result "status" with
      | error e =>
        rw [hst] at h
        rw [wfStep_foldl_error] at h
        exact absurd h (by simp)
      | ok st =>
        rw [hst] at h
        simp only at h
        obtain ⟨extra, he, hi, hl⟩ := ih _ _ _ _ _ _ h
        refine ⟨result :: extra, ?_, ?_, ?_⟩
        · rw [he]; simp
        · rw [hi, List.countP_cons]
          have hget : getD result "status" = st := getD_of_pyGetItem _ _ _ hst
          simp only [wfNonValid, hget]
          cases hsv : st.eqStr "valid"
          all_goals simp [hsv]
          all_goals omega
        · simp [hl]

theorem vStep_foldl_error (o : Oracle) (chunks : List String) (e : PyErr)
    (calls : Calls) :
    chunks.foldl (vStep o) (.error e, calls) = (.error e, calls) := by
  induction chunks with
  | nil => rfl
  | cons c rest ih => rw [List.foldl_cons]; exact ih

/-- Validator loop invariant: a completed fold appends entries in chunk
order; validated_chunks counts exactly the entries produced by the analyzed
branch, and issues_found counts exactly the analyzed entries whose status is
not valid (zero-passage unknown entries count for neither). -/
theorem vStep_foldl_ok (o : Oracle) (chunks : List String) :
    ∀ (sum : VSummary) (entries : List VChunkEntry) (calls : Calls)
      (sum' : VSummary) (entries' : List VChunkEntry) (calls' : Calls),
    chunks.foldl (vStep o) (.ok (sum, entries), calls) = (.ok (sum', entries'), calls') →
    ∃ extra : List VChunkEntry, entries' = entries ++ extra ∧
      sum'.validated_chunks =
        sum.validated_chunks + extra.countP VChunkEntry.analyzed ∧
      sum'.issues_found =
        sum.issues_found + extra.countP (fun e => e.analyzed && e.nonValid) ∧
      sum'.total_chunks = sum.total_chunks := by
  induction chunks with
  | nil =>
    intro sum entries calls sum' entries' calls' h
    rw [List.foldl_nil] at h
    obtain ⟨hE, hC⟩ := Prod.mk.inj h
    obtain ⟨hsum, hent⟩ := Prod.mk.inj (Except.ok.inj hE)
    exact ⟨[], by simp [← hent], by simp [← hsum], by simp [← hsum], by simp [← hsum]⟩
  | cons c rest ih =>
    intro sum entries calls sum' entries' calls' h
    rw [List.foldl_cons] at h
    rw [vStep] at h
    by_cases hws : (pyStrip c == "") = true
    · rw [if_pos hws] at h
      exact ih _ _ _ _ _ _ h
    · rw [if_neg hws] at h
      simp only at h
      by_cases hkb : (o.retrieve (c.take 500)).isEmpty = true
      · rw [if_pos hkb] at h
        obtain ⟨extra, he, hv, hi, ht⟩ := ih _ _ _ _ _ _ h
        refine ⟨{ content := c, status := .str "unknown",
                  message := .str "No relevant information found in knowledge base",
                  references := .arr [], suggestions := none } :: extra, ?_, ?_, ?_, ?_⟩
        · rw [he]; simp
        · rw [hv, List.countP_cons]; simp [VChunkEntry.analyzed]
        · rw [hi, List.countP_cons]; simp [VChunkEntry.analyzed]
        · exact ht
      · rw [if_neg hkb] at h
        cases had : analyzeDecode (o.reply c (o.retrieve (c.take 500))) with
        | error e =>
          rw [had] at h
          rw [vStep_foldl_error] at h
          exact absurd h (by simp)
        | ok analysis =>
          rw [had] at h
          simp only at h
          cases hst : pyGetItem analysis "status" with
          | error e =>
            rw [hst] at h; rw [vStep_foldl_error] at h; exact absurd h (by simp)
          | ok st =>
            rw [hst] at h
            simp only at h
            cases hmsg : pyGetItem analysis "message" with
            | error e =>
              rw [hmsg] at h; rw [vStep_foldl_error] at h; exact absurd h (by simp)
            | ok msg =>
              rw [hmsg] at h
              simp only at h
              cases hrefs : pyGetItem analysis "references" with
              | error e =>
                rw [hrefs] at h; rw [vStep_foldl_error] at h; exact absurd h (by simp)
              | ok refs =>
                rw [hrefs] at h
                simp only at h
                cases hsugg : pyGetItem analysis "suggestions" with
                | error e =>
                  rw [hsugg] at h; rw [vStep_foldl_error] at h
                  exact absurd h (by simp)
                | ok sugg =>
                  rw [hsugg] at h
                  simp only at h
                  obtain ⟨extra, he, hv, hi, ht⟩ := ih _ _ _ _ _ _ h
                  refine ⟨{ content := c, status := st, message := msg,
                            references := refs, suggestions := some sugg } :: extra,
                          ?_, ?_, ?_, ?_⟩
                  · rw [he]; simp
                  · rw [hv, List.countP_cons]
                    simp [VChunkEntry.analyzed]
                    omega
                  · rw [hi, List.countP_cons]
                    simp only [VChunkEntry.analyzed, VChunkEntry.nonValid,
                      Option.isSome_some, Bool.true_and]
                    cases hsv : st.eqStr "valid"
                    all_goals simp [hsv]
                    all_goals omega
                  · exact ht

/-- C1 counterexample: running ContentValidator.validate_content on a
one-chunk document for which retrieval finds nothing produces a verdict list
holding one Verdict with status unknown (which is not valid), while
issues_found = 0, validated_chunks = 0 and overall_status = valid: the
zero-passage Verdict is counted by neither summary counter, so
overall_status is valid although not every Verdict is valid. -/
theorem validator_unknown_verdict_uncounted :
    (validateContent oracleNoKbNoJson "x" "full").1 =
      .ok { summary := { total_chunks := 1, validated_chunks := 0, issues_found := 0 },
            chunks := [{ content := "x", status := .str "unknown",
                         message := .str "No relevant information found in knowledge base",
                         references := .arr [], suggestions := none }],
            overall_status := "valid" } ∧
    (Json.str "unknown").eqStr "valid" = false :=
  ⟨rfl, rfl⟩

/-- C2 counterexample: ContentValidationWorkflow._validate_chunk makes one
model call even when the retriever returns an empty passage list, and the
resulting verdict carries the model answer (here status valid), not status
unknown. -/
theorem wf_zero_passages_still_invokes_model :
    (wfValidateChunk oracleEmptyKb "x").2.model = 1 ∧
    (wfValidateChunk oracleEmptyKb "x").1 =
      .ok (.obj [("status", .str "valid"), ("content", .str "x")]) :=
  ⟨rfl, rfl⟩

/-- C3 counterexample: a model reply that is valid JSON but not an object
(the number 42) raises a TypeError in both analysis call sites, and the
exception propagates out of the workflow run, aborting the remaining
chunks. -/
theorem json_non_object_reply_raises :
    analyzeDecode (some (.num 42)) = .error .typeError ∧
    (wfValidateChunk oracleJsonNum "x").1 = .error .typeError ∧
    (wfValidateFile oracleJsonNum "f" "x" "full").1 = .error .typeError :=
  ⟨rfl, rfl, rfl⟩

/-- C4 counterexample: when the model reply parses as an empty JSON object,
the workflow call site performs no backfill, and the issue-counting step of
validate_file raises a KeyError for the omitted status field, failing the
run. -/
theorem wf_omitted_field_fails_run :
    (wfValidateFile oracleEmptyObj "f" "x" "full").1 = .error (.keyError "status") :=
  rfl

/-- C1 amended: at the workflow call site the invariant holds as stated:
issues_found counts the Verdicts whose status is not valid, validated_chunks
equals the number of chunks (one Verdict each), and overall_status is valid
iff issues_found is zero iff every Verdict is valid.  At the
ContentValidator.validate_content call site the counters cover only chunks
analyzed with retrieved passages: validated_chunks counts analyzed entries,
issues_found counts non-valid analyzed entries, and overall_status is valid
iff issues_found is zero — zero-passage unknown Verdicts are excluded from
both counters, so overall_status can be valid although a Verdict in the list
is not valid. -/
theorem aggregation_invariants :
    (∀ (o : Oracle) (fp content scope : String) (r : WfResult) (calls : Calls),
      wfValidateFile o fp content scope = (.ok r, calls) →
      r.summary.issues_found = r.chunks.countP wfNonValid ∧
      r.summary.validated_chunks = r.chunks.length ∧
      (r.overall_status = "valid" ↔ r.summary.issues_found = 0) ∧
      (r.overall_status = "valid" ↔ ∀ j ∈ r.chunks, wfNonValid j = false)) ∧
    (∀ (o : Oracle) (content scope : String) (r : VResult) (calls : Calls),
      validateContent o content scope = (.ok r, calls) →
      r.summary.validated_chunks = r.chunks.countP VChunkEntry.analyzed ∧
      r.summary.issues_found =
        r.chunks.countP (fun e => e.analyzed && e.nonValid) ∧
      (r.overall_status = "valid" ↔ r.summary.issues_found = 0)) := by
  constructor
  · intro o fp content scope r calls h
    rw [wfValidateFile] at h
    cases hsp : splitContentWf content scope with
    | error e => rw [hsp] at h; exact absurd h (by simp)
    | ok chunks =>
      rw [hsp] at h
      simp only at h
      rcases hf : chunks.foldl (wfStep o) (.ok ([], 0), ⟨0, 0⟩) with ⟨res, cc⟩
      rw [hf] at h
      cases res with
      | error e => exact absurd h (by simp)
      | ok p =>
        obtain ⟨vs, issues⟩ := p
        simp only at h
        obtain ⟨hR, hcalls⟩ := Prod.mk.inj h
        obtain hr := Except.ok.inj hR
        obtain ⟨extra, he, hi, hl⟩ := wfStep_foldl_ok o chunks _ _ _ _ _ _ hf
        subst hr
        simp only [List.nil_append] at he
        subst he
        simp only [Nat.zero_add] at hi
        subst hi
        refine ⟨rfl, hl.symm, ?_, ?_⟩
        · by_cases hz : vs.countP wfNonValid = 0 <;>
            simp [hz, Nat.beq_eq_true_eq]
        · by_cases hz : vs.countP wfNonValid = 0
          · simp only [hz, Nat.beq_eq_true_eq]
            constructor
            · intro _
              intro j hj
              have := List.countP_eq_zero.mp hz j hj
              simpa using this
            · intro _; rfl
          · have hne : (vs.countP wfNonValid == 0) = false := by
              simp [Nat.beq_eq_true_eq, hz]
            rw [hne]
            simp only [Bool.false_eq_true, if_false]
            constructor
            · intro hcontra; exact absurd hcontra (by decide)
            · intro hall
              exact absurd (List.countP_eq_zero.mpr
                (fun a ha => by simp [hall a ha])) hz
  · intro o content scope r calls h
    rw [validateContent] at h
    cases hsp : splitContentByScope content scope with
    | error e => rw [hsp] at h; exact absurd h (by simp)
    | ok chunks =>
      rw [hsp] at h
      simp only at h
      rcases hf : chunks.foldl (vStep o)
          (.ok ({ total_chunks := chunks.length, validated_chunks := 0,
                  issues_found := 0 }, []), ⟨0, 0⟩) with ⟨res, cc⟩
      rw [hf] at h
      cases res with
      | error e => exact absurd h (by simp)
      | ok p =>
        obtain ⟨sum, entries⟩ := p
        simp only at h
        obtain ⟨hR, hcalls⟩ := Prod.mk.inj h
        obtain hr := Except.ok.inj hR
        obtain ⟨extra, he, hv, hi, ht⟩ := vStep_foldl_ok o chunks _ _ _ _ _ _ hf
        subst hr
        simp only [List.nil_append] at he
        subst he
        simp only [Nat.zero_add] at hv hi
        refine ⟨hv, hi, ?_⟩
        by_cases hz : sum.issues_found = 0 <;> simp [hz, Nat.beq_eq_true_eq]

/-- Witness for C1 amended at concrete completed runs of both call sites. -/
theorem aggregation_invariants_witness :
    ((wfValidateFile oracleValid "f" "x" "full").1 =
      .ok { file_path := "f", scope := "full", overall_status := "valid",
            summary := { validated_chunks := 1, issues_found := 0 },
            chunks := [.obj [("status", .str "valid"), ("content", .str "x")]] }) ∧
    ({ validated_chunks := 1, issues_found := 0 : WfSummary}.issues_found =
      ([Json.obj [("status", .str "valid"), ("content", .str "x")]].countP wfNonValid)) ∧
    ((validateContent oracleValid "x" "full").1 =
      .ok { summary := { total_chunks := 1, validated_chunks := 1, issues_found := 0 },
            chunks := [{ content := "x", status := .str "valid", message := .str "",
                         references := .arr [], suggestions := some (.arr []) }],
            overall_status := "valid" }) ∧
    ({ total_chunks := 1, validated_chunks := 1, issues_found := 0 : VSummary}.validated_chunks =
      ([({ content := "x", status := .str "valid", message := .str "",
           references := .arr [], suggestions := some (.arr []) } : VChunkEntry)].countP
        VChunkEntry.analyzed)) := by
  have h1 := (aggregation_invariants.1 oracleValid "f" "x" "full"
    { file_path := "f", scope := "full", overall_status := "valid",
      summary := { validated_chunks := 1, issues_found := 0 },
      chunks := [.obj [("status", .str "valid"), ("content", .str "x")]] } ⟨1, 1⟩ rfl).1
  have h2 := (aggregation_invariants.2 oracleValid "x" "full"
    { summary := { total_chunks := 1, validated_chunks := 1, issues_found := 0 },
      chunks := [{ content := "x", status := .str "valid", message := .str "",
                   references := .arr [], suggestions := some (.arr []) }],
      overall_status := "valid" } ⟨1, 1⟩ rfl).1
  exact ⟨rfl, h1, rfl, h2⟩

/-- C2 amended: at the ContentValidator.validate_content call site, a
nonempty chunk for which retrieval returns no passages yields a Verdict with
status unknown and the no-relevant-information message, with no model call
(the model counter is untouched); at the workflow call site,
_validate_chunk always makes exactly one retrieval and one model call, even
when the retriever returned no passages. -/
theorem zero_passage_verdict_sites (o : Oracle) (chunk : String)
    (sum : VSummary) (entries : List VChunkEntry) (calls : Calls)
    (hne : pyStrip chunk ≠ "") (hkb : o.retrieve (chunk.take 500) = []) :
    vStep o (.ok (sum, entries), calls) chunk =
      (.ok (sum, entries ++
        [{ content := chunk, status := .str "unknown",
           message := .str "No relevant information found in knowledge base",
           references := .arr [], suggestions := none }]),
       { retrieve := calls.retrieve + 1, model := calls.model }) ∧
    (wfValidateChunk o chunk).2 = ⟨1, 1⟩ := by
  constructor
  · have e : (pyStrip chunk == "") = false := beq_eq_false_iff_ne.mpr hne
    simp [vStep, e, hkb]
  · rfl

/-- Witness for C2 amended at a concrete chunk and an empty knowledge base. -/
theorem zero_passage_verdict_sites_witness :
    vStep oracleNoKbNoJson
        (.ok ({ total_chunks := 1, validated_chunks := 0, issues_found := 0 }, []), ⟨0, 0⟩)
        "x" =
      (.ok ({ total_chunks := 1, validated_chunks := 0, issues_found := 0 },
        [] ++ [{ content := "x", status := .str "unknown",
                 message := .str "No relevant information found in knowledge base",
                 references := .arr [], suggestions := none }]),
       { retrieve := 0 + 1, model := 0 }) ∧
    (wfValidateChunk oracleNoKbNoJson "x").2 = ⟨1, 1⟩ :=
  zero_passage_verdict_sites oracleNoKbNoJson "x"
    { total_chunks := 1, validated_chunks := 0, issues_found := 0 } [] ⟨0, 0⟩
    (by decide) rfl

/-- C3 amended: when the raw model reply is not valid JSON, analysis never
raises at either call site: the validator decodes it to the generic unknown
verdict with the failed-analysis message, and the workflow builds the error
verdict with the failed-parse message; a reply decoding to a JSON object also
never raises.  (A reply that is valid JSON but not an object does raise a
TypeError; see the counterexample.) -/
theorem malformed_reply_fallback_verdicts (o : Oracle) (chunk : String)
    (h : o.reply chunk ((o.retrieve (chunk.take 500)).take 3) = none) :
    analyzeDecode none =
      .ok (.obj [("status", .str "unknown"),
                 ("message", .str "Failed to analyze content"),
                 ("references", .arr []),
                 ("suggestions", .arr [.str "Re-run validation with different scope"])]) ∧
    (wfValidateChunk o chunk).1 =
      .ok (.obj [("status", .str "error"),
                 ("message", .str "Failed to parse validation result"),
                 ("suggestions", .arr []),
                 ("content", .str chunk)]) ∧
    (∀ fs, ∃ fs', analyzeDecode (some (.obj fs)) = .ok (.obj fs')) := by
  refine ⟨rfl, ?_, ?_⟩
  · simp only [wfValidateChunk, h]
    rfl
  · intro fs
    obtain ⟨fs', h1, _, _, _⟩ := backfill_fields requiredFields fs
    exact ⟨fs', h1⟩

/-- Witness for C3 amended at a concrete chunk and a non-JSON reply. -/
theorem malformed_reply_fallback_verdicts_witness :
    (wfValidateChunk oracleNoKbNoJson "x").1 =
      .ok (.obj [("status", .str "error"),
                 ("message", .str "Failed to parse validation result"),
                 ("suggestions", .arr []),
                 ("content", .str "x")]) :=
  (malformed_reply_fallback_verdicts oracleNoKbNoJson "x" rfl).2.1

/-- C4 amended: at the validator call site, a reply that decodes to a JSON
object has every omitted schema field backfilled (an empty list for
references and suggestions, the empty string for message and status),
existing fields are kept, and the chunk completes analysis: the loop step
succeeds, appending one entry and counting the chunk.  The workflow call
site performs no backfill, and a reply omitting status fails the run with a
KeyError (see the counterexample). -/
theorem analyzer_backfills_omitted_fields (fs : List (String × Json))
    (o : Oracle) (sum : VSummary) (entries : List VChunkEntry) (calls : Calls)
    (chunk : String)
    (hne : pyStrip chunk ≠ "")
    (hkb : o.retrieve (chunk.take 500) ≠ [])
    (hrep : o.reply chunk (o.retrieve (chunk.take 500)) = some (.obj fs)) :
    (∃ fs',
      analyzeDecode (some (.obj fs)) = .ok (.obj fs') ∧
      (∀ f ∈ requiredFields, hasKey fs' f = true) ∧
      (∀ f ∈ requiredFields, hasKey fs f = false →
        lookupField fs' f = some (defaultFor f)) ∧
      (∀ k, hasKey fs k = true → lookupField fs' k = lookupField fs k)) ∧
    (∃ sum' e, vStep o (.ok (sum, entries), calls) chunk =
      (.ok (sum', entries ++ [e]),
       { retrieve := calls.retrieve + 1, model := calls.model + 1 })) := by
  obtain ⟨fs', h1, h2, h3, h4⟩ := backfill_fields requiredFields fs
  constructor
  · refine ⟨fs', h1, ?_, ?_, h3⟩
    · intro f hf
      rw [h2 f]
      simp only [Bool.or_eq_true]
      exact Or.inr (List.elem_eq_true_of_mem hf)
    · intro f hf hmiss
      exact h4 f hf hmiss
  · have e : (pyStrip chunk == "") = false := beq_eq_false_iff_ne.mpr hne
    have hkbe : (o.retrieve (chunk.take 500)).isEmpty = false := by
      cases hp : o.retrieve (chunk.take 500) with
      | nil => exact absurd hp hkb
      | cons a l => simp [List.isEmpty]
    have hstat : hasKey fs' "status" = true := by
      rw [h2 "status"]; simp [requiredFields]
    have hmsg : hasKey fs' "message" = true := by
      rw [h2 "message"]; simp [requiredFields]
    have hrefs : hasKey fs' "references" = true := by
      rw [h2 "references"]; simp [requiredFields]
    have hsugg : hasKey fs' "suggestions" = true := by
      rw [h2 "suggestions"]; simp [requiredFields]
    have hget : ∀ k, hasKey fs' k = true → ∃ v, pyGetItem (.obj fs') k = .ok v := by
      intro k hk
      simp only [hasKey, List.any_eq_true] at hk
      obtain ⟨p, hp, hpk⟩ := hk
      have : (fs'.find? (fun p => p.1 == k)).isSome := by
        exact List.find?_isSome.mpr ⟨p, hp, hpk⟩
      cases hfind : fs'.find? (fun p => p.1 == k) with
      | none => rw [hfind] at this; exact absurd this (by simp)
      | some q => exact ⟨q.2, by simp [pyGetItem, hfind]⟩
    obtain ⟨vst, hvst⟩ := hget "status" hstat
    obtain ⟨vmsg, hvmsg⟩ := hget "message" hmsg
    obtain ⟨vrefs, hvrefs⟩ := hget "references" hrefs
    obtain ⟨vsugg, hvsugg⟩ := hget "suggestions" hsugg
    refine ⟨⟨sum.total_chunks, sum.validated_chunks + 1,
             sum.issues_found + (if vst.eqStr "valid" then 0 else 1)⟩,
            ⟨chunk, vst, vmsg, vrefs, some vsugg⟩, ?_⟩
    simp only [vStep, e, Bool.false_eq_true, if_false, hkbe, hrep]
    have h1' : analyzeDecode (some (.obj fs)) = .ok (.obj fs') := h1
    simp only [h1', hvst, hvmsg, hvrefs, hvsugg]

/-- Witness for C4 amended at a concrete chunk, passage list and reply. -/
theorem analyzer_backfills_omitted_fields_witness :
    (∃ fs',
      analyzeDecode (some (.obj [])) = .ok (.obj fs') ∧
      (∀ f ∈ requiredFields, hasKey fs' f = true) ∧
      (∀ f ∈ requiredFields, hasKey [] f = false →
        lookupField fs' f = some (defaultFor f)) ∧
      (∀ k, hasKey [] k = true → lookupField fs' k = lookupField [] k)) ∧
    (∃ sum' e, vStep oracleEmptyObj
        (.ok ({ total_chunks := 1, validated_chunks := 0, issues_found := 0 }, []), ⟨0, 0⟩)
        "x" =
      (.ok (sum', [] ++ [e]), { retrieve := 0 + 1, model := 0 + 1 })) :=
  analyzer_backfills_omitted_fields [] oracleEmptyObj
    { total_chunks := 1, validated_chunks := 0, issues_found := 0 } [] ⟨0, 0⟩ "x"
    (by decide) (by decide) rfl

/-- C5 counterexample: scope full returns the document verbatim, so a
whitespace-only document yields a whitespace-only chunk at both call sites;
and the core markdown section path emits a whitespace-only section for a
document starting with blank lines before a heading. -/
theorem chunker_emits_ws_only_entries :
    splitContentByScope " " "full" = .ok [" "] ∧
    splitContentWf " " "full" = .ok [" "] ∧
    pyStrip " " = "" ∧
    splitContentByScope "\n\n# A" "section" = .ok ["\n", "# A"] ∧
    pyStrip "\n" = "" :=
  ⟨rfl, rfl, rfl, rfl, rfl⟩

theorem dropWhile_length_le {α : Type} (p : α → Bool) (l : List α) :
    (l.dropWhile p).length ≤ l.length := by
  induction l with
  | nil => simp
  | cons a t ih =>
    by_cases h : p a = true
    · rw [List.dropWhile_cons, if_pos h]
      exact Nat.le_succ_of_le ih
    · rw [List.dropWhile_cons, if_neg h]

theorem dropWhile_dropWhile_self {α : Type} (p : α → Bool) (l : List α) :
    (l.dropWhile p).dropWhile p = l.dropWhile p := by
  induction l with
  | nil => rfl
  | cons a t ih =>
    by_cases h : p a = true
    · rw [List.dropWhile_cons, if_pos h]
      exact ih
    · rw [List.dropWhile_cons, if_neg h, List.dropWhile_cons, if_neg h]

theorem dropWhile_append_singleton {α : Type} (p : α → Bool) (a : α)
    (ha : p a = false) (xs : List α) :
    ∃ ys, (xs ++ [a]).dropWhile p = ys ++ [a] := by
  induction xs with
  | nil => exact ⟨[], by simp [List.dropWhile_cons, ha]⟩
  | cons x t ih =>
    by_cases h : p x = true
    · obtain ⟨ys, hy⟩ := ih
      exact ⟨ys, by simp only [List.cons_append, List.dropWhile_cons, if_pos h]; exact hy⟩
    · exact ⟨x :: t, by simp [List.dropWhile_cons, h]⟩

theorem dropWhile_trimRight (l : List Char) (hl : l.dropWhile isPyWs = l) :
    (trimRightWs l).dropWhile isPyWs = trimRightWs l := by
  cases l with
  | nil => rfl
  | cons a t =>
    have ha : isPyWs a = false := by
      by_cases h : isPyWs a = true
      · rw [List.dropWhile_cons, if_pos h] at hl
        have hle := dropWhile_length_le isPyWs t
        rw [hl] at hle
        simp at hle
      · simpa using h
    obtain ⟨ys, hy⟩ := dropWhile_append_singleton isPyWs a ha t.reverse
    simp only [trimRightWs, List.reverse_cons, hy, List.reverse_append,
      List.reverse_singleton, List.singleton_append, List.reverse_nil,
      List.nil_append]
    rw [List.dropWhile_cons, if_neg (by simp [ha])]

theorem pyStripList_idem (l : List Char) :
    pyStripList (pyStripList l) = pyStripList l := by
  have h1 : (trimLeftWs l).dropWhile isPyWs = trimLeftWs l :=
    dropWhile_dropWhile_self isPyWs l
  have h2 := dropWhile_trimRight (trimLeftWs l) h1
  show trimRightWs (trimLeftWs (trimRightWs (trimLeftWs l))) = trimRightWs (trimLeftWs l)
  have h3 : trimLeftWs (trimRightWs (trimLeftWs l)) = trimRightWs (trimLeftWs l) := h2
  rw [h3]
  show (((trimRightWs (trimLeftWs l)).reverse).dropWhile isPyWs).reverse = _
  simp only [trimRightWs, List.reverse_reverse, dropWhile_dropWhile_self]

theorem pyStrip_idem (s : String) : pyStrip (pyStrip s) = pyStrip s := by
  have h : pyStrip (pyStrip s) = String.mk (pyStripList (pyStripList s.data)) := rfl
  rw [h, pyStripList_idem]
  rfl

theorem mem_filter_strip (l : List String) (x : String)
    (hx : x ∈ l.filter (fun s => pyStrip s != "")) : pyStrip x ≠ "" := by
  obtain ⟨_, hpred⟩ := List.mem_filter.mp hx
  exact bne_iff_ne.mp hpred

theorem mem_stripAndFilter (l : List String) (x : String)
    (hx : x ∈ stripAndFilter l) : pyStrip x ≠ "" := by
  simp only [stripAndFilter, List.mem_map] at hx
  obtain ⟨s, hs, hxs⟩ := hx
  obtain ⟨_, hpred⟩ := List.mem_filter.mp hs
  subst hxs
  rw [pyStrip_idem]
  exact bne_iff_ne.mp hpred

theorem map_data_map_mk (l : List (List Char)) :
    (l.map String.mk).map String.data = l := by
  induction l with
  | nil => rfl
  | cons a t ih =>
    simp only [List.map_cons]
    rw [ih]

theorem ChunksInOrder.prepend (pre rest : List Char)
    (chunks : List (List Char)) (h : ChunksInOrder rest chunks) :
    ChunksInOrder (pre ++ rest) chunks := by
  cases h with
  | nil r => exact .nil _
  | cons gap piece r cs h' =>
    have he : pre ++ (gap ++ (piece ++ r)) = (pre ++ gap) ++ (piece ++ r) :=
      (List.append_assoc pre gap _).symm
    rw [he]
    exact .cons (pre ++ gap) piece r cs h'

/-- Dropping chunks from an in-order decomposition keeps it in order (the
dropped chunk text joins the following gap). -/
theorem chunksInOrder_filter (q : String → Bool) (doc : List Char)
    (chunks : List String) (h : ChunksInOrder doc (chunks.map String.data)) :
    ChunksInOrder doc ((chunks.filter q).map String.data) := by
  induction chunks generalizing doc with
  | nil => simpa using h
  | cons s t ih =>
    rw [List.map_cons] at h
    cases h with
    | cons gap piece rest cs h' =>
      rw [List.filter_cons]
      by_cases hq : q s = true
      · rw [if_pos hq, List.map_cons]
        exact .cons gap s.data rest _ (ih rest h')
      · rw [if_neg hq]
        have h3 := ChunksInOrder.prepend (gap ++ s.data) rest _ (ih rest h')
        rw [List.append_assoc] at h3
        exact h3

theorem trimRight_decomp (m : List Char) :
    m = trimRightWs m ++ (m.reverse.takeWhile isPyWs).reverse := by
  conv_lhs => rw [← List.reverse_reverse m,
    ← List.takeWhile_append_dropWhile isPyWs m.reverse, List.reverse_append]
  rfl

/-- A stripped string is an infix of the original: the original is the
leading whitespace, the stripped text, then the trailing whitespace. -/
theorem pyStripList_decomp (l : List Char) :
    l = l.takeWhile isPyWs ++ (pyStripList l ++
      ((l.dropWhile isPyWs).reverse.takeWhile isPyWs).reverse) := by
  conv_lhs => rw [← List.takeWhile_append_dropWhile isPyWs l]
  congr 1
  exact trimRight_decomp (l.dropWhile isPyWs)

/-- Stripping every chunk of an in-order decomposition keeps it in order
(the removed whitespace joins the gaps). -/
theorem chunksInOrder_map_strip (doc : List Char) (chunks : List String)
    (h : ChunksInOrder doc (chunks.map String.data)) :
    ChunksInOrder doc ((chunks.map pyStrip).map String.data) := by
  induction chunks generalizing doc with
  | nil => simpa using h
  | cons s t ih =>
    rw [List.map_cons] at h
    cases h with
    | cons gap piece rest cs h' =>
      rw [List.map_cons, List.map_cons]
      have h2 := ChunksInOrder.prepend
        (((s.data.dropWhile isPyWs).reverse.takeWhile isPyWs).reverse) rest _
        (ih rest h')
      have h3 := ChunksInOrder.cons (gap ++ s.data.takeWhile isPyWs)
        (pyStripList s.data) _ _ h2
      have he : gap ++ (s.data ++ rest) =
          (gap ++ s.data.takeWhile isPyWs) ++
            (pyStripList s.data ++
              (((s.data.dropWhile isPyWs).reverse.takeWhile isPyWs).reverse ++ rest)) := by
        conv_lhs => rw [pyStripList_decomp s.data]
        simp [List.append_assoc]
      rw [he]
      exact h3

theorem chunksInOrder_stripAndFilter (doc : List Char) (l : List String)
    (h : ChunksInOrder doc (l.map String.data)) :
    ChunksInOrder doc ((stripAndFilter l).map String.data) :=
  chunksInOrder_map_strip doc (l.filter (fun s => pyStrip s != ""))
    (chunksInOrder_filter _ doc l h)

/-- The validator paragraph splitter emits its pieces in input order. -/
theorem splitNlNl_inOrder (cs cur : List Char) :
    ChunksInOrder (cur.reverse ++ cs) (splitNlNlL cs cur) := by
  induction cs, cur using splitNlNlL.induct with
  | case1 cur =>
    rw [splitNlNlL.eq_1]
    have h := ChunksInOrder.cons [] cur.reverse [] [] (.nil [])
    simpa using h
  | case2 rest cur ih =>
    rw [splitNlNlL.eq_2]
    simp only [List.reverse_nil, List.nil_append] at ih
    have h2 := ChunksInOrder.prepend ['\n', '\n'] rest _ ih
    have h3 := ChunksInOrder.cons [] cur.reverse ('\n' :: '\n' :: rest) _ h2
    simpa using h3
  | case3 c rest cur hne ih =>
    rw [splitNlNlL.eq_3 _ _ _ hne]
    simpa [List.reverse_cons, List.append_assoc] using ih

/-- The sentence splitter (both call sites) emits its pieces in input
order. -/
theorem sentencePieces_inOrder :
    ∀ (fuel : Nat) (cs cur : List Char),
    ChunksInOrder (cur.reverse ++ cs) (sentencePiecesL fuel cs cur) := by
  intro fuel
  induction fuel with
  | zero =>
    intro cs cur
    have h := ChunksInOrder.cons [] (cur.reverse ++ cs) [] [] (.nil [])
    simpa using h
  | succ n ih =>
    intro cs cur
    cases cs with
    | nil =>
      have h := ChunksInOrder.cons [] cur.reverse [] [] (.nil [])
      simpa using h
    | cons c rest =>
      rw [show sentencePiecesL (n + 1) (c :: rest) cur =
        (if (c == '.' || c == '!' || c == '?') && headIsWs rest then
          (c :: cur).reverse :: sentencePiecesL n (rest.dropWhile isPyWs) []
        else sentencePiecesL n rest (c :: cur)) from rfl]
      by_cases hcond : ((c == '.' || c == '!' || c == '?') && headIsWs rest) = true
      · rw [if_pos hcond]
        have h1 := ih (rest.dropWhile isPyWs) []
        simp only [List.reverse_nil, List.nil_append] at h1
        have h2 := ChunksInOrder.prepend (rest.takeWhile isPyWs) _ _ h1
        rw [List.takeWhile_append_dropWhile] at h2
        have h3 := ChunksInOrder.cons [] (c :: cur).reverse rest _ h2
        simpa [List.reverse_cons, List.append_assoc] using h3
      · rw [if_neg hcond]
        have h1 := ih rest (c :: cur)
        simpa [List.reverse_cons, List.append_assoc] using h1

/-- The workflow paragraph splitter emits its pieces in input order. -/
theorem paraPiecesWf_inOrder :
    ∀ (fuel : Nat) (cs cur : List Char),
    ChunksInOrder (cur.reverse ++ cs) (paraPiecesWfL fuel cs cur) := by
  intro fuel
  induction fuel with
  | zero =>
    intro cs cur
    have h := ChunksInOrder.cons [] (cur.reverse ++ cs) [] [] (.nil [])
    simpa using h
  | succ n ih =>
    intro cs cur
    cases cs with
    | nil =>
      have h := ChunksInOrder.cons [] cur.reverse [] [] (.nil [])
      simpa using h
    | cons c rest =>
      rw [show paraPiecesWfL (n + 1) (c :: rest) cur =
        (if c == '\n' then
          match lastNlIdx (rest.takeWhile isPyWs) with
          | some m => cur.reverse :: paraPiecesWfL n (rest.drop (m + 1)) []
          | none => paraPiecesWfL n rest (c :: cur)
        else paraPiecesWfL n rest (c :: cur)) from rfl]
      by_cases hc : (c == '\n') = true
      · rw [if_pos hc]
        cases hm : lastNlIdx (rest.takeWhile isPyWs) with
        | some m =>
          have h1 := ih (rest.drop (m + 1)) []
          simp only [List.reverse_nil, List.nil_append] at h1
          have h2 := ChunksInOrder.prepend (rest.take (m + 1)) _ _ h1
          rw [List.take_append_drop] at h2
          have h3 := ChunksInOrder.prepend [c] rest _ h2
          have h4 := ChunksInOrder.cons [] cur.reverse (c :: rest) _ h3
          simpa using h4
        | none =>
          have h1 := ih rest (c :: cur)
          simpa [List.reverse_cons, List.append_assoc] using h1
      · rw [if_neg hc]
        have h1 := ih rest (c :: cur)
        simpa [List.reverse_cons, List.append_assoc] using h1

/-- The workflow markdown section splitter emits its pieces in input
order. -/
theorem mdPiecesWf_inOrder :
    ∀ (fuel : Nat) (cs cur : List Char),
    ChunksInOrder (cur.reverse ++ cs) (mdPiecesWfL fuel cs cur) := by
  intro fuel
  induction fuel with
  | zero =>
    intro cs cur
    have h := ChunksInOrder.cons [] (cur.reverse ++ cs) [] [] (.nil [])
    simpa using h
  | succ n ih =>
    intro cs cur
    cases cs with
    | nil =>
      have h := ChunksInOrder.cons [] cur.reverse [] [] (.nil [])
      simpa using h
    | cons c rest =>
      rw [show mdPiecesWfL (n + 1) (c :: rest) cur =
        (if c == '\n' then
          let r := (rest.takeWhile (fun d => d == '#')).length
          if 1 ≤ r && r ≤ 6 && headIsSpace (rest.drop r) then
            cur.reverse :: mdPiecesWfL n (rest.drop (r + 1)) []
          else mdPiecesWfL n rest (c :: cur)
        else mdPiecesWfL n rest (c :: cur)) from rfl]
      by_cases hc : (c == '\n') = true
      · rw [if_pos hc]
        show ChunksInOrder _ (if _ then _ else _)
        by_cases hr : (1 ≤ (rest.takeWhile (fun d => d == '#')).length &&
            (rest.takeWhile (fun d => d == '#')).length ≤ 6 &&
            headIsSpace (rest.drop (rest.takeWhile (fun d => d == '#')).length)) = true
        · rw [if_pos hr]
          have h1 := ih (rest.drop ((rest.takeWhile (fun d => d == '#')).length + 1)) []
          simp only [List.reverse_nil, List.nil_append] at h1
          have h2 := ChunksInOrder.prepend
            (rest.take ((rest.takeWhile (fun d => d == '#')).length + 1)) _ _ h1
          rw [List.take_append_drop] at h2
          have h3 := ChunksInOrder.prepend [c] rest _ h2
          have h4 := ChunksInOrder.cons [] cur.reverse (c :: rest) _ h3
          simpa using h4
        · rw [if_neg hr]
          have h1 := ih rest (c :: cur)
          simpa [List.reverse_cons, List.append_assoc] using h1
      · rw [if_neg hc]
        have h1 := ih rest (c :: cur)
        simpa [List.reverse_cons, List.append_assoc] using h1

/-- A matched opening section tag is an initial segment of the input. -/
theorem afterOpenTag_decomp (cs tail : List Char)
    (h : afterOpenTag cs = some tail) : ∃ consumed, cs = consumed ++ tail := by
  unfold afterOpenTag at h
  split at h
  · split at h
    · rename_i tl heq
      obtain rfl := Option.some.inj h
      refine ⟨cs.take 8 ++ ((cs.drop 8).takeWhile (fun c => c != '>') ++ ['>']), ?_⟩
      have hd : cs.drop 8 =
          (cs.drop 8).takeWhile (fun c => c != '>') ++ ('>' :: tl) := by
        conv_lhs => rw [← List.takeWhile_append_dropWhile
          (fun c => c != '>') (cs.drop 8)]
        rw [heq]
      conv_lhs => rw [← List.take_append_drop 8 cs, hd]
      simp [List.append_assoc]
    · exact absurd h (by simp)
  · exact absurd h (by simp)

/-- A matched closing section tag is an initial segment of the input. -/
theorem afterCloseTag_decomp (cs tail : List Char)
    (h : afterCloseTag cs = some tail) : ∃ consumed, cs = consumed ++ tail := by
  unfold afterCloseTag at h
  split at h
  · obtain rfl := Option.some.inj h
    exact ⟨cs.take 10, (List.take_append_drop 10 cs).symm⟩
  · exact absurd h (by simp)

/-- The validator XML section splitter emits its pieces in input order. -/
theorem xmlPiecesCore_inOrder :
    ∀ (fuel : Nat) (cs cur : List Char),
    ChunksInOrder (cur.reverse ++ cs) (xmlPiecesCoreL fuel cs cur) := by
  intro fuel
  induction fuel with
  | zero =>
    intro cs cur
    have h := ChunksInOrder.cons [] (cur.reverse ++ cs) [] [] (.nil [])
    simpa using h
  | succ n ih =>
    intro cs cur
    cases cs with
    | nil =>
      have h := ChunksInOrder.cons [] cur.reverse [] [] (.nil [])
      simpa using h
    | cons c rest =>
      rw [show xmlPiecesCoreL (n + 1) (c :: rest) cur =
        (match afterOpenTag (c :: rest) with
         | some tail => cur.reverse :: xmlPiecesCoreL n tail []
         | none =>
           match afterCloseTag (c :: rest) with
           | some tail => cur.reverse :: xmlPiecesCoreL n tail []
           | none => xmlPiecesCoreL n rest (c :: cur)) from rfl]
      split
      · rename_i tail ho
        obtain ⟨consumed, hdec⟩ := afterOpenTag_decomp _ _ ho
        have h1 := ih tail []
        simp only [List.reverse_nil, List.nil_append] at h1
        have h2 := ChunksInOrder.prepend consumed tail _ h1
        rw [← hdec] at h2
        have h3 := ChunksInOrder.cons [] cur.reverse (c :: rest) _ h2
        simpa using h3
      · split
        · rename_i tail hcl
          obtain ⟨consumed, hdec⟩ := afterCloseTag_decomp _ _ hcl
          have h1 := ih tail []
          simp only [List.reverse_nil, List.nil_append] at h1
          have h2 := ChunksInOrder.prepend consumed tail _ h1
          rw [← hdec] at h2
          have h3 := ChunksInOrder.cons [] cur.reverse (c :: rest) _ h2
          simpa using h3
        · have h1 := ih rest (c :: cur)
          simpa [List.reverse_cons, List.append_assoc] using h1

/-- The workflow XML section splitter emits its pieces in input order. -/
theorem xmlPiecesWf_inOrder :
    ∀ (fuel : Nat) (cs cur : List Char),
    ChunksInOrder (cur.reverse ++ cs) (xmlPiecesWfL fuel cs cur) := by
  intro fuel
  induction fuel with
  | zero =>
    intro cs cur
    have h := ChunksInOrder.cons [] (cur.reverse ++ cs) [] [] (.nil [])
    simpa using h
  | succ n ih =>
    intro cs cur
    cases cs with
    | nil =>
      have h := ChunksInOrder.cons [] cur.reverse [] [] (.nil [])
      simpa using h
    | cons c rest =>
      rw [show xmlPiecesWfL (n + 1) (c :: rest) cur =
        (match afterOpenTag (c :: rest) with
         | some tail => cur.reverse :: xmlPiecesWfL n tail []
         | none => xmlPiecesWfL n rest (c :: cur)) from rfl]
      split
      · rename_i tail ho
        obtain ⟨consumed, hdec⟩ := afterOpenTag_decomp _ _ ho
        have h1 := ih tail []
        simp only [List.reverse_nil, List.nil_append] at h1
        have h2 := ChunksInOrder.prepend consumed tail _ h1
        rw [← hdec] at h2
        have h3 := ChunksInOrder.cons [] cur.reverse (c :: rest) _ h2
        simpa using h3
      · have h1 := ih rest (c :: cur)
        simpa [List.reverse_cons, List.append_assoc] using h1

theorem splitLinesL_ne_nil : ∀ (cs cur : List Char), splitLinesL cs cur ≠ [] := by
  intro cs
  induction cs with
  | nil => intro cur; simp [splitLinesL]
  | cons c rest ih =>
    intro cur
    rw [show splitLinesL (c :: rest) cur =
      (if c == '\n' then cur.reverse :: splitLinesL rest []
       else splitLinesL rest (c :: cur)) from rfl]
    by_cases h : (c == '\n') = true
    · rw [if_pos h]; simp
    · rw [if_neg h]; exact ih (c :: cur)

theorem joinNl_cons_ne (x : String) (ls : List String) (h : ls ≠ []) :
    joinNl (x :: ls) = x ++ "\n" ++ joinNl ls := by
  cases ls with
  | nil => exact absurd rfl h
  | cons y ys => rfl

theorem joinNl_append : ∀ (a b : List String), a ≠ [] → b ≠ [] →
    joinNl (a ++ b) = joinNl a ++ "\n" ++ joinNl b := by
  intro a
  induction a with
  | nil => intro b ha _; exact absurd rfl ha
  | cons x a' ih =>
    intro b ha hb
    cases a' with
    | nil =>
      rw [List.singleton_append, joinNl_cons_ne x b hb]
      rfl
    | cons z a'' =>
      have h1 : joinNl ((x :: z :: a'') ++ b) =
          x ++ "\n" ++ joinNl ((z :: a'') ++ b) := rfl
      rw [h1, ih b (by simp) hb, joinNl_cons_ne x (z :: a'') (by simp)]
      simp [String.append_assoc]

/-- Splitting at newlines and rejoining with newlines restores the text. -/
theorem joinNl_splitLines : ∀ (cs cur : List Char),
    joinNl ((splitLinesL cs cur).map String.mk) = String.mk (cur.reverse ++ cs) := by
  intro cs
  induction cs with
  | nil =>
    intro cur
    show String.mk cur.reverse = String.mk (cur.reverse ++ [])
    rw [List.append_nil]
  | cons c rest ih =>
    intro cur
    by_cases h : (c == '\n') = true
    · have hc : c = '\n' := beq_iff_eq.mp h
      subst hc
      rw [show splitLinesL ('\n' :: rest) cur =
        cur.reverse :: splitLinesL rest [] from rfl, List.map_cons]
      rw [joinNl_cons_ne _ _ (by
        intro hnil
        exact splitLinesL_ne_nil rest [] (List.map_eq_nil_iff.mp hnil))]
      rw [ih []]
      show String.mk cur.reverse ++ String.mk ['\n'] ++ String.mk ([].reverse ++ rest) = _
      rw [show String.mk cur.reverse ++ String.mk ['\n'] =
        String.mk (cur.reverse ++ ['\n']) from rfl]
      rw [show String.mk (cur.reverse ++ ['\n']) ++ String.mk ([].reverse ++ rest) =
        String.mk ((cur.reverse ++ ['\n']) ++ ([].reverse ++ rest)) from rfl]
      congr 1
      simp
    · rw [show splitLinesL (c :: rest) cur = splitLinesL rest (c :: cur) from by
        rw [show splitLinesL (c :: rest) cur =
          (if c == '\n' then cur.reverse :: splitLinesL rest []
           else splitLinesL rest (c :: cur)) from rfl, if_neg h]]
      rw [ih (c :: cur)]
      congr 1
      simp [List.reverse_cons, List.append_assoc]

/-- The flush of the markdown accumulation fold computes `mdEmit`. -/
theorem mdFold_emit : ∀ (lines secs cur : List String),
    (if (lines.foldl mdSectionsCoreStep (secs, cur)).2.isEmpty then
      (lines.foldl mdSectionsCoreStep (secs, cur)).1
     else (lines.foldl mdSectionsCoreStep (secs, cur)).1 ++
       [joinNl (lines.foldl mdSectionsCoreStep (secs, cur)).2]) =
    secs ++ mdEmit lines cur := by
  intro lines
  induction lines with
  | nil =>
    intro secs cur
    simp only [List.foldl_nil]
    rw [show mdEmit [] cur = (if cur.isEmpty then [] else [joinNl cur]) from rfl]
    by_cases h : cur.isEmpty = true
    · rw [if_pos h, if_pos h]
      simp
    · rw [if_neg h, if_neg h]
  | cons line lines ih =>
    intro secs cur
    rw [List.foldl_cons]
    rw [show mdSectionsCoreStep (secs, cur) line =
      (if startsWithHash line then
        (if cur.isEmpty then secs else secs ++ [joinNl cur], [line])
      else (secs, cur ++ [line])) from rfl]
    rw [show mdEmit (line :: lines) cur =
      (if startsWithHash line then
        (if cur.isEmpty then [] else [joinNl cur]) ++ mdEmit lines [line]
      else mdEmit lines (cur ++ [line])) from rfl]
    by_cases h : startsWithHash line = true
    · rw [if_pos h, if_pos h]
      by_cases hc : cur.isEmpty = true
      · rw [if_pos hc, if_pos hc, ih secs [line]]
        simp
      · rw [if_neg hc, if_neg hc, ih (secs ++ [joinNl cur]) [line]]
        simp [List.append_assoc]
    · rw [if_neg h, if_neg h]
      exact ih secs (cur ++ [line])

/-- The sections the markdown accumulation loop emits are, in input order,
contiguous substrings of the joined remaining lines. -/
theorem mdEmit_inOrder : ∀ (lines cur : List String),
    ChunksInOrder (joinNl (cur ++ lines)).data ((mdEmit lines cur).map String.data) := by
  intro lines
  induction lines with
  | nil =>
    intro cur
    rw [show mdEmit [] cur = (if cur.isEmpty then [] else [joinNl cur]) from rfl]
    by_cases h : cur.isEmpty = true
    · rw [if_pos h]
      exact .nil _
    · rw [if_neg h]
      rw [List.append_nil]
      have hcons := ChunksInOrder.cons [] (joinNl cur).data [] [] (.nil [])
      simpa using hcons
  | cons line lines ih =>
    intro cur
    rw [show mdEmit (line :: lines) cur =
      (if startsWithHash line then
        (if cur.isEmpty then [] else [joinNl cur]) ++ mdEmit lines [line]
      else mdEmit lines (cur ++ [line])) from rfl]
    by_cases h : startsWithHash line = true
    · rw [if_pos h]
      by_cases hc : cur.isEmpty = true
      · rw [if_pos hc]
        have hcur : cur = [] := by
          cases cur with
          | nil => rfl
          | cons a t => simp [List.isEmpty] at hc
        subst hcur
        simpa using ih [line]
      · rw [if_neg hc]
        have hcur : cur ≠ [] := by
          intro hh
          subst hh
          simp at hc
        have hj : joinNl (cur ++ line :: lines) =
            joinNl cur ++ "\n" ++ joinNl (line :: lines) :=
          joinNl_append cur (line :: lines) hcur (by simp)
        rw [hj]
        have hrest := ih [line]
        rw [List.singleton_append] at hrest
        have h2 := ChunksInOrder.prepend ['\n'] _ _ hrest
        have h3 := ChunksInOrder.cons [] (joinNl cur).data _ _ h2
        simpa [String.data_append, List.append_assoc] using h3
    · rw [if_neg h]
      have he : cur ++ line :: lines = (cur ++ [line]) ++ lines := by simp
      rw [he]
      exact ih (cur ++ [line])

/-- The validator markdown section path emits its sections in input order. -/
theorem mdSectionsCore_inOrder (content : String) :
    ChunksInOrder content.data ((mdSectionsCore content).map String.data) := by
  have hm : mdSectionsCore content =
      [] ++ mdEmit ((splitLinesL content.data []).map String.mk) [] :=
    mdFold_emit ((splitLinesL content.data []).map String.mk) [] []
  rw [hm, List.nil_append]
  have he := mdEmit_inOrder ((splitLinesL content.data []).map String.mk) []
  rw [List.nil_append, joinNl_splitLines content.data []] at he
  exact he

/-- C5 amended: scope full returns exactly one chunk at both call sites (the
document verbatim, whitespace-only exactly when the document is); the
paragraph and sentence scopes at both sites, the section scope at the
workflow site, and the XML section path at the validator site never emit
empty or whitespace-only entries.  The validator markdown section path can
emit whitespace-only sections (see the counterexample).  For every scope in
the enumeration and both call sites, input order is preserved: the chunks
are non-overlapping contiguous substrings of the document appearing in
document order. -/
theorem chunker_entry_properties (content : String) :
    splitContentByScope content "full" = .ok [content] ∧
    splitContentWf content "full" = .ok [content] ∧
    (∀ chunks, splitContentByScope content "paragraph" = .ok chunks →
      ∀ x ∈ chunks, pyStrip x ≠ "") ∧
    (∀ chunks, splitContentByScope content "sentence" = .ok chunks →
      ∀ x ∈ chunks, pyStrip x ≠ "") ∧
    ((containsSub content "<section" || containsSub content "</section>") = true →
      ∀ chunks, splitContentByScope content "section" = .ok chunks →
      ∀ x ∈ chunks, pyStrip x ≠ "") ∧
    (∀ chunks, splitContentWf content "paragraph" = .ok chunks →
      ∀ x ∈ chunks, pyStrip x ≠ "") ∧
    (∀ chunks, splitContentWf content "sentence" = .ok chunks →
      ∀ x ∈ chunks, pyStrip x ≠ "") ∧
    (∀ chunks, splitContentWf content "section" = .ok chunks →
      ∀ x ∈ chunks, pyStrip x ≠ "") ∧
    (∀ scope chunks, scope ∈ ["full", "section", "paragraph", "sentence"] →
      splitContentByScope content scope = .ok chunks →
      ChunksInOrder content.data (chunks.map String.data)) ∧
    (∀ scope chunks, scope ∈ ["full", "section", "paragraph", "sentence"] →
      splitContentWf content scope = .ok chunks →
      ChunksInOrder content.data (chunks.map String.data)) := by
  refine ⟨rfl, rfl, ?_, ?_, ?_, ?_, ?_, ?_, ?_, ?_⟩
  · intro chunks h x hx
    have hp : splitContentByScope content "paragraph" =
        .ok (((splitNlNlL content.data []).map String.mk).filter
          (fun s => pyStrip s != "")) := rfl
    rw [hp] at h
    obtain he := Except.ok.inj h
    subst he
    exact mem_filter_strip _ _ hx
  · intro chunks h x hx
    have hp : splitContentByScope content "sentence" =
        .ok (((sentencePiecesL content.data.length content.data []).map String.mk).filter
          (fun s => pyStrip s != "")) := rfl
    rw [hp] at h
    obtain he := Except.ok.inj h
    subst he
    exact mem_filter_strip _ _ hx
  · intro hxml chunks h x hx
    have hp : splitContentByScope content "section" =
        (if (containsSub content "<section" || containsSub content "</section>") = true then
          .ok (((xmlPiecesCoreL content.data.length content.data []).map String.mk).filter
            (fun s => pyStrip s != ""))
        else .ok (mdSectionsCore content)) := rfl
    rw [hp, if_pos hxml] at h
    obtain he := Except.ok.inj h
    subst he
    exact mem_filter_strip _ _ hx
  · intro chunks h x hx
    have hp : splitContentWf content "paragraph" =
        .ok (stripAndFilter ((paraPiecesWfL content.data.length content.data []).map
          String.mk)) := rfl
    rw [hp] at h
    obtain he := Except.ok.inj h
    subst he
    exact mem_stripAndFilter _ _ hx
  · intro chunks h x hx
    have hp : splitContentWf content "sentence" =
        .ok (stripAndFilter ((sentencePiecesL content.data.length content.data []).map
          String.mk)) := rfl
    rw [hp] at h
    obtain he := Except.ok.inj h
    subst he
    exact mem_stripAndFilter _ _ hx
  · intro chunks h x hx
    have hp : splitContentWf content "section" =
        (if (containsSub content "<section") = true then
          .ok (stripAndFilter ((xmlPiecesWfL content.data.length content.data []).map
            String.mk))
        else
          .ok (stripAndFilter ((mdPiecesWfL content.data.length content.data []).map
            String.mk))) := rfl
    rw [hp] at h
    by_cases hc : (containsSub content "<section") = true
    · rw [if_pos hc] at h
      obtain he := Except.ok.inj h
      subst he
      exact mem_stripAndFilter _ _ hx
    · rw [if_neg hc] at h
      obtain he := Except.ok.inj h
      subst he
      exact mem_stripAndFilter _ _ hx
  · intro scope chunks hmem h
    simp only [List.mem_cons, List.not_mem_nil, or_false] at hmem
    rcases hmem with rfl | rfl | rfl | rfl
    · have hp : splitContentByScope content "full" = .ok [content] := rfl
      rw [hp] at h
      obtain he := Except.ok.inj h
      subst he
      have hc := ChunksInOrder.cons [] content.data [] [] (.nil [])
      simpa using hc
    · have hp : splitContentByScope content "section" =
          (if (containsSub content "<section" || containsSub content "</section>") = true then
            .ok (((xmlPiecesCoreL content.data.length content.data []).map String.mk).filter
              (fun s => pyStrip s != ""))
          else .ok (mdSectionsCore content)) := rfl
      rw [hp] at h
      by_cases hx : (containsSub content "<section" ||
          containsSub content "</section>") = true
      · rw [if_pos hx] at h
        obtain he := Except.ok.inj h
        subst he
        apply chunksInOrder_filter
        rw [map_data_map_mk]
        have hb := xmlPiecesCore_inOrder content.data.length content.data []
        simpa using hb
      · rw [if_neg hx] at h
        obtain he := Except.ok.inj h
        subst he
        exact mdSectionsCore_inOrder content
    · have hp : splitContentByScope content "paragraph" =
          .ok (((splitNlNlL content.data []).map String.mk).filter
            (fun s => pyStrip s != "")) := rfl
      rw [hp] at h
      obtain he := Except.ok.inj h
      subst he
      apply chunksInOrder_filter
      rw [map_data_map_mk]
      have hb := splitNlNl_inOrder content.data []
      simpa using hb
    · have hp : splitContentByScope content "sentence" =
          .ok (((sentencePiecesL content.data.length content.data []).map String.mk).filter
            (fun s => pyStrip s != "")) := rfl
      rw [hp] at h
      obtain he := Except.ok.inj h
      subst he
      apply chunksInOrder_filter
      rw [map_data_map_mk]
      have hb := sentencePieces_inOrder content.data.length content.data []
      simpa using hb
  · intro scope chunks hmem h
    simp only [List.mem_cons, List.not_mem_nil, or_false] at hmem
    rcases hmem with rfl | rfl | rfl | rfl
    · have hp : splitContentWf content "full" = .ok [content] := rfl
      rw [hp] at h
      obtain he := Except.ok.inj h
      subst he
      have hc := ChunksInOrder.cons [] content.data [] [] (.nil [])
      simpa using hc
    · have hp : splitContentWf content "section" =
          (if (containsSub content "<section") = true then
            .ok (stripAndFilter ((xmlPiecesWfL content.data.length content.data []).map
              String.mk))
          else
            .ok (stripAndFilter ((mdPiecesWfL content.data.length content.data []).map
              String.mk))) := rfl
      rw [hp] at h
      by_cases hx : (containsSub content "<section") = true
      · rw [if_pos hx] at h
        obtain he := Except.ok.inj h
        subst he
        apply chunksInOrder_stripAndFilter
        rw [map_data_map_mk]
        have hb := xmlPiecesWf_inOrder content.data.length content.data []
        simpa using hb
      · rw [if_neg hx] at h
        obtain he := Except.ok.inj h
        subst he
        apply chunksInOrder_stripAndFilter
        rw [map_data_map_mk]
        have hb := mdPiecesWf_inOrder content.data.length content.data []
        simpa using hb
    · have hp : splitContentWf content "paragraph" =
          .ok (stripAndFilter ((paraPiecesWfL content.data.length content.data []).map
            String.mk)) := rfl
      rw [hp] at h
      obtain he := Except.ok.inj h
      subst he
      apply chunksInOrder_stripAndFilter
      rw [map_data_map_mk]
      have hb := paraPiecesWf_inOrder content.data.length content.data []
      simpa using hb
    · have hp : splitContentWf content "sentence" =
          .ok (stripAndFilter ((sentencePiecesL content.data.length content.data []).map
            String.mk)) := rfl
      rw [hp] at h
      obtain he := Except.ok.inj h
      subst he
      apply chunksInOrder_stripAndFilter
      rw [map_data_map_mk]
      have hb := sentencePieces_inOrder content.data.length content.data []
      simpa using hb

/-- Witness for C5 amended on a concrete document. -/
theorem chunker_entry_properties_witness :
    splitContentByScope "a. b" "full" = .ok ["a. b"] ∧
    splitContentWf "a. b" "full" = .ok ["a. b"] ∧
    pyStrip "a." ≠ "" ∧
    ChunksInOrder "a. b".data (["a. b"].map String.data) := by
  have h := chunker_entry_properties "a. b"
  refine ⟨h.1, h.2.1, ?_, ?_⟩
  · exact h.2.2.2.1 ["a.", "b"] rfl "a." (by simp)
  · exact h.2.2.2.2.2.2.2.2.1 "full" ["a. b"] (by simp) rfl

/-- C6 counterexample: section splitting deletes non-whitespace delimiter
characters at both call sites — the markdown heading marker at the workflow
site and the XML section tags at the validator site — so the concatenation
of the chunks no longer reconstructs the document even ignoring
whitespace. -/
theorem section_split_drops_heading_marker :
    splitContentWf "a\n# B" "section" = .ok ["a", "B"] ∧
    nonWsChars (concatChunks ["a", "B"]) = ['a', 'B'] ∧
    nonWsChars "a\n# B" = ['a', '#', 'B'] ∧
    (['a', 'B'] : List Char) ≠ ['a', '#', 'B'] ∧
    splitContentByScope "x<section>y</section>z" "section" = .ok ["x", "y", "z"] ∧
    nonWsChars (concatChunks ["x", "y", "z"]) ≠
      nonWsChars "x<section>y</section>z" :=
  ⟨rfl, rfl, rfl, by decide, rfl, by decide⟩

theorem filterNW_cons_ws (a : Char) (t : List Char) (h : isPyWs a = true) :
    filterNW (a :: t) = filterNW t := by
  simp [filterNW, List.filter_cons, h]

theorem filterNW_cons_nws (a : Char) (t : List Char) (h : isPyWs a = false) :
    filterNW (a :: t) = a :: filterNW t := by
  simp [filterNW, List.filter_cons, h]

theorem filterNW_append (l1 l2 : List Char) :
    filterNW (l1 ++ l2) = filterNW l1 ++ filterNW l2 :=
  List.filter_append l1 l2

theorem filterNW_dropWhile (l : List Char) :
    filterNW (l.dropWhile isPyWs) = filterNW l := by
  induction l with
  | nil => rfl
  | cons a t ih =>
    by_cases h : isPyWs a = true
    · rw [List.dropWhile_cons, if_pos h, ih, filterNW_cons_ws a t h]
    · rw [List.dropWhile_cons, if_neg h]

theorem filterNW_reverse (l : List Char) :
    filterNW l.reverse = (filterNW l).reverse :=
  List.filter_reverse _ l

theorem filterNW_pyStrip (l : List Char) :
    filterNW (pyStripList l) = filterNW l := by
  show filterNW (((trimLeftWs l).reverse.dropWhile isPyWs).reverse) = filterNW l
  rw [filterNW_reverse, filterNW_dropWhile, filterNW_reverse, List.reverse_reverse]
  exact filterNW_dropWhile l

theorem filterNW_of_strip_nil (l : List Char) (h : pyStripList l = []) :
    filterNW l = [] := by
  rw [← filterNW_pyStrip, h]
  rfl

theorem strip_empty_data (s : String) (h : pyStrip s = "") :
    pyStripList s.data = [] :=
  congrArg String.data h

theorem filterNW_flatten_filter (pieces : List String) :
    filterNW (((pieces.filter (fun s => pyStrip s != "")).map String.data).flatten) =
      filterNW ((pieces.map String.data).flatten) := by
  induction pieces with
  | nil => rfl
  | cons s t ih =>
    by_cases h : (pyStrip s != "") = true
    · rw [List.filter_cons, if_pos h]
      simp only [List.map_cons, List.flatten_cons, filterNW_append, ih]
    · rw [List.filter_cons, if_neg h, ih]
      have hs : pyStrip s = "" := by
        by_cases h2 : pyStrip s = ""
        · exact h2
        · exact absurd (bne_iff_ne.mpr h2) h
      rw [List.map_cons, List.flatten_cons, filterNW_append,
        filterNW_of_strip_nil s.data (strip_empty_data s hs), List.nil_append]

theorem filterNW_flatten_stripAndFilter (pieces : List String) :
    filterNW (((stripAndFilter pieces).map String.data).flatten) =
      filterNW ((pieces.map String.data).flatten) := by
  induction pieces with
  | nil => rfl
  | cons s t ih =>
    by_cases h : (pyStrip s != "") = true
    · have hsf : stripAndFilter (s :: t) = pyStrip s :: stripAndFilter t := by
        simp [stripAndFilter, List.filter_cons, h]
      rw [hsf, List.map_cons, List.flatten_cons, filterNW_append, ih,
        List.map_cons, List.flatten_cons, filterNW_append]
      congr 1
      exact filterNW_pyStrip s.data
    · have hsf : stripAndFilter (s :: t) = stripAndFilter t := by
        simp [stripAndFilter, List.filter_cons, h]
      rw [hsf, ih]
      have hs : pyStrip s = "" := by
        by_cases h2 : pyStrip s = ""
        · exact h2
        · exact absurd (bne_iff_ne.mpr h2) h
      rw [List.map_cons, List.flatten_cons, filterNW_append,
        filterNW_of_strip_nil s.data (strip_empty_data s hs), List.nil_append]

/-- Reconstruction for the paragraph splitter of the validator: the split
pieces hold every character of the input except the newline separators. -/
theorem splitNlNl_chars (cs cur : List Char) :
    filterNW ((splitNlNlL cs cur).flatten) = filterNW (cur.reverse ++ cs) := by
  induction cs, cur using splitNlNlL.induct with
  | case1 cur =>
    rw [splitNlNlL.eq_1]
    simp [filterNW_append]
  | case2 rest cur ih =>
    rw [splitNlNlL.eq_2, List.flatten_cons, filterNW_append, ih]
    simp only [List.reverse_nil, List.nil_append]
    rw [filterNW_append, filterNW_cons_ws '\n' ('\n' :: rest) rfl,
      filterNW_cons_ws '\n' rest rfl]
  | case3 c rest cur hne ih =>
    rw [splitNlNlL.eq_3 _ _ _ hne, ih]
    simp [List.reverse_cons, List.append_assoc]

theorem sentence_punct_not_ws (c : Char)
    (h : (c == '.' || c == '!' || c == '?') = true) : isPyWs c = false := by
  simp only [Bool.or_eq_true, beq_iff_eq] at h
  rcases h with (h | h) | h <;> subst h <;> rfl

/-- Reconstruction for the sentence splitter (both call sites): the pieces
hold every character of the input except the whitespace runs consumed after
sentence-final punctuation. -/
theorem sentencePieces_chars :
    ∀ (fuel : Nat) (cs cur : List Char), cs.length ≤ fuel →
    filterNW ((sentencePiecesL fuel cs cur).flatten) = filterNW (cur.reverse ++ cs) := by
  intro fuel
  induction fuel with
  | zero =>
    intro cs cur h
    have hcs : cs = [] := List.length_eq_zero.mp (Nat.le_zero.mp h)
    subst hcs
    simp [sentencePiecesL, filterNW_append]
  | succ n ih =>
    intro cs cur h
    cases cs with
    | nil => simp [sentencePiecesL, filterNW_append]
    | cons c rest =>
      rw [show sentencePiecesL (n + 1) (c :: rest) cur =
        (if (c == '.' || c == '!' || c == '?') && headIsWs rest then
          (c :: cur).reverse :: sentencePiecesL n (rest.dropWhile isPyWs) []
        else sentencePiecesL n rest (c :: cur)) from rfl]
      have hlen : rest.length ≤ n := Nat.le_of_succ_le_succ h
      by_cases hcond : ((c == '.' || c == '!' || c == '?') && headIsWs rest) = true
      · rw [if_pos hcond, List.flatten_cons, filterNW_append,
          ih (rest.dropWhile isPyWs) []
            (le_trans (dropWhile_length_le isPyWs rest) hlen)]
        have hcn : isPyWs c = false :=
          sentence_punct_not_ws c (Bool.and_elim_left hcond)
        simp only [List.reverse_nil, List.nil_append, filterNW_dropWhile]
        rw [List.reverse_cons, filterNW_append, filterNW_append,
          filterNW_cons_nws c rest hcn, filterNW_cons_nws c [] hcn]
        simp [filterNW]
      · rw [if_neg hcond, ih rest (c :: cur) hlen]
        simp [List.reverse_cons, List.append_assoc]

theorem lastNlIdx_lt (l : List Char) (m : Nat) (h : lastNlIdx l = some m) :
    m < l.length := by
  induction l generalizing m with
  | nil => exact absurd h (by simp [lastNlIdx])
  | cons c rest ih =>
    rw [lastNlIdx] at h
    cases hr : lastNlIdx rest with
    | some m' =>
      rw [hr] at h
      obtain hm := Option.some.inj h
      subst hm
      exact Nat.succ_lt_succ (ih m' hr)
    | none =>
      rw [hr] at h
      by_cases hc : (c == '\n') = true
      · rw [if_pos hc] at h
        obtain hm := Option.some.inj h
        subst hm
        simp
      · rw [if_neg hc] at h
        exact absurd h (by simp)

theorem take_eq_take_takeWhile {α : Type} (p : α → Bool) :
    ∀ (l : List α) (k : Nat), k ≤ (l.takeWhile p).length →
    l.take k = (l.takeWhile p).take k := by
  intro l
  induction l with
  | nil => intro k h; simp
  | cons a t ih =>
    intro k h
    by_cases hp : p a = true
    · rw [List.takeWhile_cons, if_pos hp] at h ⊢
      cases k with
      | zero => simp
      | succ k' =>
        rw [List.take_succ_cons, List.take_succ_cons,
          ih k' (Nat.le_of_succ_le_succ h)]
    · rw [List.takeWhile_cons, if_neg hp] at h
      have : k = 0 := Nat.le_zero.mp h
      subst this
      simp

theorem mem_take_takeWhile_ws (rest : List Char) (k : Nat)
    (hk : k ≤ (rest.takeWhile isPyWs).length) :
    ∀ x ∈ rest.take k, isPyWs x = true := by
  intro x hx
  rw [take_eq_take_takeWhile isPyWs rest k hk] at hx
  exact List.mem_takeWhile_imp (List.mem_of_mem_take hx)

/-- Reconstruction for the workflow paragraph splitter: the pieces hold
every character of the input except the matched blank-line separators, which
are whitespace. -/
theorem paraPiecesWf_chars :
    ∀ (fuel : Nat) (cs cur : List Char), cs.length ≤ fuel →
    filterNW ((paraPiecesWfL fuel cs cur).flatten) = filterNW (cur.reverse ++ cs) := by
  intro fuel
  induction fuel with
  | zero =>
    intro cs cur h
    have hcs : cs = [] := List.length_eq_zero.mp (Nat.le_zero.mp h)
    subst hcs
    simp [paraPiecesWfL, filterNW_append]
  | succ n ih =>
    intro cs cur h
    cases cs with
    | nil => simp [paraPiecesWfL, filterNW_append]
    | cons c rest =>
      rw [show paraPiecesWfL (n + 1) (c :: rest) cur =
        (if c == '\n' then
          match lastNlIdx (rest.takeWhile isPyWs) with
          | some m => cur.reverse :: paraPiecesWfL n (rest.drop (m + 1)) []
          | none => paraPiecesWfL n rest (c :: cur)
        else paraPiecesWfL n rest (c :: cur)) from rfl]
      have hlen : rest.length ≤ n := Nat.le_of_succ_le_succ h
      by_cases hc : (c == '\n') = true
      · rw [if_pos hc]
        have hceq : c = '\n' := beq_iff_eq.mp hc
        cases hm : lastNlIdx (rest.takeWhile isPyWs) with
        | some m =>
          have hmlt : m < (rest.takeWhile isPyWs).length :=
            lastNlIdx_lt _ m hm
          have hdlen : (rest.drop (m + 1)).length ≤ n := by
            rw [List.length_drop]
            omega
          rw [List.flatten_cons, filterNW_append, ih (rest.drop (m + 1)) [] hdlen]
          simp only [List.reverse_nil, List.nil_append]
          have hsplit : filterNW rest = filterNW (rest.drop (m + 1)) := by
            conv_lhs => rw [← List.take_append_drop (m + 1) rest]
            rw [filterNW_append]
            have hnil : filterNW (rest.take (m + 1)) = [] := by
              apply List.filter_eq_nil_iff.mpr
              intro a ha
              have hws := mem_take_takeWhile_ws rest (m + 1) hmlt a ha
              simp [hws]
            rw [hnil, List.nil_append]
          subst hceq
          rw [filterNW_append, filterNW_cons_ws '\n' rest rfl, hsplit]
        | none =>
          rw [ih rest (c :: cur) hlen]
          simp [List.reverse_cons, List.append_assoc]
      · rw [if_neg hc, ih rest (c :: cur) hlen]
        simp [List.reverse_cons, List.append_assoc]

/-- C6 amended: for the full, paragraph and sentence scopes, at both call
sites, the chunks in input order reconstruct the document up to whitespace
(no non-whitespace character is dropped, duplicated or reordered).  For the
section scope, split delimiters that contain non-whitespace characters
(markdown heading markers at the workflow site, XML section tags) are
removed, so reconstruction fails on documents containing them (see the
counterexample). -/
theorem chunks_reconstruct_document (content : String) :
    (∀ chunks, splitContentByScope content "full" = .ok chunks →
      nonWsChars (concatChunks chunks) = nonWsChars content) ∧
    (∀ chunks, splitContentWf content "full" = .ok chunks →
      nonWsChars (concatChunks chunks) = nonWsChars content) ∧
    (∀ chunks, splitContentByScope content "paragraph" = .ok chunks →
      nonWsChars (concatChunks chunks) = nonWsChars content) ∧
    (∀ chunks, splitContentByScope content "sentence" = .ok chunks →
      nonWsChars (concatChunks chunks) = nonWsChars content) ∧
    (∀ chunks, splitContentWf content "paragraph" = .ok chunks →
      nonWsChars (concatChunks chunks) = nonWsChars content) ∧
    (∀ chunks, splitContentWf content "sentence" = .ok chunks →
      nonWsChars (concatChunks chunks) = nonWsChars content) := by
  refine ⟨?_, ?_, ?_, ?_, ?_, ?_⟩
  · intro chunks h
    obtain he := Except.ok.inj h
    subst he
    show filterNW (([content].map String.data).flatten) = filterNW content.data
    simp
  · intro chunks h
    obtain he := Except.ok.inj h
    subst he
    show filterNW (([content].map String.data).flatten) = filterNW content.data
    simp
  · intro chunks h
    have hp : splitContentByScope content "paragraph" =
        .ok (((splitNlNlL content.data []).map String.mk).filter
          (fun s => pyStrip s != "")) := rfl
    rw [hp] at h
    obtain he := Except.ok.inj h
    subst he
    show filterNW ((((splitNlNlL content.data []).map String.mk).filter
        (fun s => pyStrip s != "")).map String.data).flatten = filterNW content.data
    rw [filterNW_flatten_filter, map_data_map_mk]
    have := splitNlNl_chars content.data []
    simpa using this
  · intro chunks h
    have hp : splitContentByScope content "sentence" =
        .ok (((sentencePiecesL content.data.length content.data []).map String.mk).filter
          (fun s => pyStrip s != "")) := rfl
    rw [hp] at h
    obtain he := Except.ok.inj h
    subst he
    show filterNW ((((sentencePiecesL content.data.length content.data []).map
        String.mk).filter (fun s => pyStrip s != "")).map String.data).flatten =
      filterNW content.data
    rw [filterNW_flatten_filter, map_data_map_mk]
    have := sentencePieces_chars content.data.length content.data [] (Nat.le_refl _)
    simpa using this
  · intro chunks h
    have hp : splitContentWf content "paragraph" =
        .ok (stripAndFilter ((paraPiecesWfL content.data.length content.data []).map
          String.mk)) := rfl
    rw [hp] at h
    obtain he := Except.ok.inj h
    subst he
    show filterNW (((stripAndFilter ((paraPiecesWfL content.data.length content.data
        []).map String.mk)).map String.data).flatten) = filterNW content.data
    rw [filterNW_flatten_stripAndFilter, map_data_map_mk]
    have := paraPiecesWf_chars content.data.length content.data [] (Nat.le_refl _)
    simpa using this
  · intro chunks h
    have hp : splitContentWf content "sentence" =
        .ok (stripAndFilter ((sentencePiecesL content.data.length content.data []).map
          String.mk)) := rfl
    rw [hp] at h
    obtain he := Except.ok.inj h
    subst he
    show filterNW (((stripAndFilter ((sentencePiecesL content.data.length content.data
        []).map String.mk)).map String.data).flatten) = filterNW content.data
    rw [filterNW_flatten_stripAndFilter, map_data_map_mk]
    have := sentencePieces_chars content.data.length content.data [] (Nat.le_refl _)
    simpa using this

/-- Witness for C6 amended on a concrete two-paragraph document. -/
theorem chunks_reconstruct_document_witness :
    nonWsChars (concatChunks ["ab", "cd"]) = nonWsChars "ab\n\ncd" := by
  have h := (chunks_reconstruct_document "ab\n\ncd").2.2.1 ["ab", "cd"] rfl
  exact h

theorem except_bind_ok {ε α β : Type} (a : α) (f : α → Except ε β) :
    (Except.ok a >>= f : Except ε β) = f a := rfl

theorem except_pure {ε α : Type} (a : α) : (pure a : Except ε α) = .ok a := rfl

theorem mdSuggestions_arr (ls : List Json) :
    mdSuggestions (.arr ls) = .ok (mdSuggestionsPure (.arr ls)) := by
  simp only [mdSuggestions, mdSuggestionsPure]
  by_cases h : (Json.arr ls).truthy = true
  · rw [if_pos h, if_pos h]
    rfl
  · rw [if_neg h, if_neg h]
    rfl

/-- One loop iteration of the markdown issues loop, on a well-formed entry:
it contributes nothing for a valid chunk and the issue subsection for a
non-valid one, never an exception. -/
theorem mdChunkSection_ok (i : Nat) (j : Json) (hok : EntryOk j) :
    mdChunkSection i j = .ok (if wfNonValid j then mdBlockOf i j else "") := by
  obtain ⟨⟨s, hs⟩, ⟨cv, hc⟩, ⟨mv, hm⟩, ⟨ls, hl⟩⟩ := hok
  have hgs := getD_of_pyGetItem _ _ _ hs
  have hgc := getD_of_pyGetItem _ _ _ hc
  have hgm := getD_of_pyGetItem _ _ _ hm
  have hgl := getD_of_pyGetItem _ _ _ hl
  simp only [mdChunkSection, hs, except_bind_ok]
  by_cases hv : (Json.str s).eqStr "valid" = true
  · rw [if_pos hv]
    have hnvf : wfNonValid j = false := by simp [wfNonValid, hgs, hv]
    rw [hnvf]
    rfl
  · rw [if_neg hv]
    simp only [hc, hm, hl, except_bind_ok, mdSuggestions_arr]
    have hnv : wfNonValid j = true := by
      simp only [wfNonValid, hgs]
      simp [hv]
    rw [hnv]
    simp only [if_pos rfl, mdBlockOf, hgs, hgc, hgm, hgl]
    rfl

theorem mdIssueBlocksFrom_cons (n : Nat) (j : Json) (t : List Json) :
    mdIssueBlocksFrom n (j :: t) =
      (if wfNonValid j then mdBlockOf n j :: mdIssueBlocksFrom (n + 1) t
       else mdIssueBlocksFrom (n + 1) t) := by
  simp only [mdIssueBlocksFrom, List.enumFrom_cons, List.filter_cons]
  by_cases h : wfNonValid j = true <;> simp [h]

theorem mdIssueBlocksFrom_length (chunks : List Json) :
    ∀ n, (mdIssueBlocksFrom n chunks).length = chunks.countP wfNonValid := by
  induction chunks with
  | nil => intro n; rfl
  | cons j t ih =>
    intro n
    rw [mdIssueBlocksFrom_cons, List.countP_cons]
    by_cases h : wfNonValid j = true
    · simp [h, ih (n + 1)]
    · simp [h, ih (n + 1)]

/-- The markdown issues loop on well-formed entries computes the
concatenation of the per-chunk issue subsections. -/
theorem mdIssuesText_from (chunks : List Json) :
    ∀ (n : Nat) (acc : String), (∀ j ∈ chunks, EntryOk j) →
    ((chunks.enumFrom n).foldlM (fun acc p => do
        let s ← mdChunkSection p.1 p.2
        pure (acc ++ s)) acc : Except PyErr String) =
      .ok (acc ++ concatStrs (mdIssueBlocksFrom n chunks)) := by
  induction chunks with
  | nil =>
    intro n acc _
    have hb : (mdIssueBlocksFrom n [] : List String) = [] := rfl
    rw [hb]
    show (pure acc : Except PyErr String) = .ok (acc ++ concatStrs [])
    rw [show concatStrs [] = "" from rfl, String.append_empty]
    rfl
  | cons j t ih =>
    intro n acc h
    rw [List.enumFrom_cons, List.foldlM_cons,
      mdChunkSection_ok n j (h j (List.mem_cons_self j t)), except_bind_ok]
    show ((t.enumFrom (n + 1)).foldlM (fun acc p => do
        let s ← mdChunkSection p.1 p.2
        pure (acc ++ s)) (acc ++ (if wfNonValid j then mdBlockOf n j else ""))
        : Except PyErr String) = _
    rw [ih (n + 1) _ (fun x hx => h x (List.mem_cons_of_mem j hx)),
      mdIssueBlocksFrom_cons]
    by_cases hnv : wfNonValid j = true
    · rw [hnv]
      simp [concatStrs, String.append_assoc]
    · simp only [hnv, Bool.false_eq_true, if_false, String.append_empty]

/-- The markdown report of a result with well-formed entries: the header,
then (only when issues were counted) the issues heading and one subsection
per non-valid chunk. -/
theorem mdReport_ok (r : WfResult) (hok : ∀ j ∈ r.chunks, EntryOk j) :
    mdReport r = .ok (mdHeader r ++
      (if r.summary.issues_found > 0 then
        "## Issues\n\n" ++ concatStrs (mdIssueBlocks r.chunks) else "")) := by
  simp only [mdReport]
  by_cases h : r.summary.issues_found > 0
  · rw [if_pos h, if_pos h]
    have ht : mdIssuesText r.chunks =
        .ok ("" ++ concatStrs (mdIssueBlocksFrom 0 r.chunks)) := by
      simp only [mdIssuesText, List.enum_eq_enumFrom]
      exact mdIssuesText_from r.chunks 0 "" hok
    rw [ht, except_bind_ok]
    simp [mdIssueBlocks, String.append_assoc, except_pure]
  · rw [if_neg h, if_neg h]
    simp [String.append_empty, except_pure]

/-- C7: for any scope outside the fixed enumeration, both split functions
raise (not return) a ValueError naming the invalid scope, the scope is not
treated as full, and both full runs abort with that error before any
retrieval or model call is made (both outbound call counters are zero). -/
theorem invalid_scope_aborts_before_calls (scope : String)
    (h1 : scope ≠ "full") (h2 : scope ≠ "section")
    (h3 : scope ≠ "paragraph") (h4 : scope ≠ "sentence")
    (content fp : String) (o : Oracle) :
    splitContentByScope content scope = .error (.valueError ("Invalid scope: " ++ scope)) ∧
    splitContentWf content scope = .error (.valueError ("Invalid scope: " ++ scope)) ∧
    validateContent o content scope =
      (.error (.valueError ("Invalid scope: " ++ scope)), ⟨0, 0⟩) ∧
    wfValidateFile o fp content scope =
      (.error (.valueError ("Invalid scope: " ++ scope)), ⟨0, 0⟩) := by
  have e1 : (scope == "full") = false := beq_eq_false_iff_ne.mpr h1
  have e2 : (scope == "section") = false := beq_eq_false_iff_ne.mpr h2
  have e3 : (scope == "paragraph") = false := beq_eq_false_iff_ne.mpr h3
  have e4 : (scope == "sentence") = false := beq_eq_false_iff_ne.mpr h4
  refine ⟨?_, ?_, ?_, ?_⟩ <;>
    simp [splitContentByScope, splitContentWf, validateContent, wfValidateFile,
      e1, e2, e3, e4]

/-- Witness for C7 at the concrete scope chapter. -/
theorem invalid_scope_aborts_before_calls_witness :
    splitContentByScope "doc" "chapter" =
      .error (.valueError ("Invalid scope: " ++ "chapter")) ∧
    splitContentWf "doc" "chapter" =
      .error (.valueError ("Invalid scope: " ++ "chapter")) ∧
    validateContent oracleValid "doc" "chapter" =
      (.error (.valueError ("Invalid scope: " ++ "chapter")), ⟨0, 0⟩) ∧
    wfValidateFile oracleValid "f" "doc" "chapter" =
      (.error (.valueError ("Invalid scope: " ++ "chapter")), ⟨0, 0⟩) :=
  invalid_scope_aborts_before_calls "chapter" (by decide) (by decide) (by decide)
    (by decide) "doc" "f" oracleValid

/-- C8: report rendering reads only the stored ValidationResult — two
instances holding equal results render byte-identical reports in either
format — and, for a result whose entries are well formed and whose
issues_found summary equals its count of non-valid verdicts, the markdown
report is the header followed (exactly when there are issues) by one Issue
subsection per non-valid chunk in order: the subsection list has one element
per non-valid Verdict, none for valid ones, and each subsection shows the
literal chunk content inside a code fence. -/
theorem reporter_pure_with_issue_sections (r : WfResult)
    (s₁ s₂ : WorkflowState) (fmt : String)
    (hok : ∀ j ∈ r.chunks, EntryOk j)
    (hcons : r.summary.issues_found = r.chunks.countP wfNonValid)
    (hst : s₁.validation_results = s₂.validation_results) :
    (generateValidationReport s₁ fmt).1 = (generateValidationReport s₂ fmt).1 ∧
    mdReport r = .ok (mdHeader r ++
      (if r.chunks.countP wfNonValid > 0 then
        "## Issues\n\n" ++ concatStrs (mdIssueBlocks r.chunks) else "")) ∧
    (mdIssueBlocks r.chunks).length = r.chunks.countP wfNonValid ∧
    (∀ p ∈ r.chunks.enum, wfNonValid p.2 = true →
      ∃ pre post, mdBlockOf p.1 p.2 =
        pre ++ ("```\n" ++ pyStr (getD p.2 "content") ++ "\n```") ++ post) := by
  refine ⟨?_, ?_, ?_, ?_⟩
  · cases h2 : s₂.validation_results with
    | none => simp [generateValidationReport, hst, h2]
    | some res => simp [generateValidationReport, hst, h2]
  · rw [mdReport_ok r hok, hcons]
  · exact mdIssueBlocksFrom_length r.chunks 0
  · intro p _ _
    refine ⟨"### Issue " ++ toString (p.1 + 1) ++ "\n\n" ++ "**Content:**\n\n",
      "\n\n" ++ "**Status:** " ++ pyStr (getD p.2 "status") ++ "\n\n" ++
        "**Message:** " ++ pyStr (getD p.2 "message") ++ "\n\n" ++
        mdSuggestionsPure (getD p.2 "suggestions"), ?_⟩
    simp only [mdBlockOf, String.append_assoc]

/-- Witness for C8 on a concrete stored result holding one issue. -/
theorem reporter_pure_with_issue_sections_witness :
    mdReport issueWfResult = .ok (mdHeader issueWfResult ++
      (if issueWfResult.chunks.countP wfNonValid > 0 then
        "## Issues\n\n" ++ concatStrs (mdIssueBlocks issueWfResult.chunks) else "")) ∧
    (mdIssueBlocks issueWfResult.chunks).length =
      issueWfResult.chunks.countP wfNonValid := by
  have hok : ∀ j ∈ issueWfResult.chunks, EntryOk j := by
    intro j hj
    have hj2 : j = Json.obj [("status", .str "issues_found"), ("message", .str "bad"),
        ("suggestions", .arr [.str "fix"]), ("content", .str "x")] := by
      simpa [issueWfResult] using hj
    subst hj2
    exact ⟨⟨"issues_found", rfl⟩, ⟨.str "x", rfl⟩, ⟨.str "bad", rfl⟩,
      ⟨[.str "fix"], rfl⟩⟩
  have h := reporter_pure_with_issue_sections issueWfResult
    ⟨"kb", "m", some issueWfResult⟩ ⟨"kb", "m", some issueWfResult⟩ "markdown"
    hok rfl rfl
  exact ⟨h.2.1, h.2.2.1⟩

/-- C9: for any stored validation results and any output format other than
the exact string markdown, generate_validation_report returns the HTML
rendering; no format value is rejected with an error. -/
theorem non_markdown_format_renders_html (s : WorkflowState) (r : WfResult)
    (fmt : String) (hr : s.validation_results = some r) (hf : fmt ≠ "markdown") :
    generateValidationReport s fmt = (htmlReport r, s) := by
  have e : (fmt == "markdown") = false := beq_eq_false_iff_ne.mpr hf
  simp [generateValidationReport, hr, e]

/-- Witness for C9 at the misspelled format markdwn. -/
theorem non_markdown_format_renders_html_witness :
    generateValidationReport ⟨"kb", "m", some sampleWfResult⟩ "markdwn" =
      (htmlReport sampleWfResult, ⟨"kb", "m", some sampleWfResult⟩) :=
  non_markdown_format_renders_html ⟨"kb", "m", some sampleWfResult⟩ sampleWfResult
    "markdwn" rfl (by decide)

/-- C10: on a workflow instance whose stored validation_results is still
None, generate_validation_report raises a ValueError for every format, and
the state returned is the input state unchanged. -/
theorem report_without_results_raises (s : WorkflowState) (fmt : String)
    (h : s.validation_results = none) :
    generateValidationReport s fmt =
      (.error (.valueError "No validation results available"), s) := by
  simp [generateValidationReport, h]

/-- Witness for C10 on a freshly initialized instance. -/
theorem report_without_results_raises_witness :
    generateValidationReport ⟨"kb", "m", none⟩ "markdown" =
      (.error (.valueError "No validation results available"), ⟨"kb", "m", none⟩) :=
  report_without_results_raises ⟨"kb", "m", none⟩ "markdown" rfl

end DocPlanner
